import Mathlib

/-!
Verification of the CEM-Cloud offline-first synchronization engine.

This file gives a shallow embedding of the engine's data model and
operations, translated from `js/storage.js` (the project-based version)
and `js/media_sync.js`, and proves or refutes the specified properties.

Conventions of the embedding:
* JavaScript objects become structures; fields that may be `undefined`
  or `null` become `Option`.
* ISO-8601 timestamp strings are represented by their epoch value
  (`new Date(t).getTime()`), a `Nat`; a missing timestamp is `none` and
  `new Date(x.timestamp || 0).getTime()` becomes `timeOf`.
* `crypto.randomUUID()` and `new Date()` are nondeterministic, so each
  operation takes the fresh id / current time as an explicit argument.
* A JavaScript `Map` (insertion-ordered, unique keys, `set` replaces in
  place) becomes an association list with `setAssoc` / `lookupAssoc`.
* Strings are compared and sorted by code points, as `Array.sort()` does
  by code units; both orders are total and antisymmetric, which is all
  the signature equalities proved here depend on.
* Asynchronous I/O (local existence checks, drive listings, per-item transfer
  outcomes) is abstracted by explicit parameters such as
  `localExists : String → Bool` and `driveFiles : List DriveFile`.
-/

namespace CEM

/-- One tracked entity (Spot, Site, Route or External File).  The source is
duck-typed JavaScript: spots carry `spotId`, the other entities carry `id`,
and `mergeArray` reads `item.spotId || item.id`, so a single record with
optional fields mirrors the data faithfully.  `rest` stands for the
remaining fields (description, coordinates, MIME type, …) that none of the
engine's algorithms inspect. -/
structure Item where
  spotId : Option String := none
  id : Option String := none
  projectId : Option String := none
  name : Option String := none
  timestamp : Option Nat := none
  image_local_filename : Option String := none
  audio_local_filename : Option String := none
  kml_filename : Option String := none
  local_path : Option String := none
  linked_spots : List String := []
  sync_status : Option String := none
  rest : String := ""
deriving DecidableEq, Repr

/-- Bookkeeping metadata of a master document. -/
structure Metadata where
  created_at : Option Nat := none
  schema_version : Option Nat := none
  last_merged : Option Nat := none
deriving DecidableEq, Repr

/-- A project: a named partition of the dataset. -/
structure Project where
  id : String
  name : String
  spots : List Item := []
  routes : List Item := []
  sites : List Item := []
  external_files : List Item := []
  created_at : Option Nat := none
deriving DecidableEq, Repr

/-- The project-based (schema v2) master document. -/
structure MasterDoc where
  currentProjectId : Option String := none
  projects : List Project := []
  metadata : Metadata := {}
deriving DecidableEq, Repr

/-- The flat (schema v1) master document: entity arrays at the root. -/
structure FlatDoc where
  spots : List Item := []
  routes : List Item := []
  sites : List Item := []
  external_files : List Item := []
  metadata : Metadata := {}
deriving DecidableEq, Repr

/-- A document as read from storage or Drive: either the old flat schema
(no `projects` field) or the project-based schema. -/
inductive RawDoc where
  | flat (d : FlatDoc)
  | proj (d : MasterDoc)
deriving DecidableEq, Repr

/-! ### JavaScript-semantics helpers -/

/-- JavaScript `a || b` for strings: `undefined` and `""` are falsy. -/
def jsOrStr (a b : Option String) : Option String :=
  match a with
  | some s => if s = "" then b else some s
  | none => b

/-- JavaScript `a || b` for an encoded timestamp: `undefined` and `0` are
falsy. -/
def jsOrNat (a : Option Nat) (b : Nat) : Nat :=
  match a with
  | some n => if n = 0 then b else n
  | none => b

/-- Model of `new Date(x || 0).getTime()` on an encoded timestamp. -/
def timeOf (t : Option Nat) : Nat := t.getD 0

/-- Template-literal rendering of a possibly missing string
(`${undefined}` prints `"undefined"`). -/
def tokStr : Option String → String
  | some s => s
  | none => "undefined"

/-- Template-literal rendering of a possibly missing timestamp. -/
def tokNat : Option Nat → String
  | some n => toString n
  | none => "undefined"

/-- Whether `pre` comes first inside `s`, on characters — JavaScript
`s.startsWith(pre)`. -/
def listIsPre : List Char → List Char → Bool
  | [], _ => true
  | _ :: _, [] => false
  | a :: as, b :: bs => a = b && listIsPre as bs

/-- JavaScript `s.startsWith(pre)`. -/
def strStartsWith (s pre : String) : Bool := listIsPre pre.data s.data

/-- JavaScript `s.substring(0, n)`. -/
def strTakeN (s : String) (n : Nat) : String := String.mk (s.data.take n)

/-- JavaScript `s.trim()`. -/
def jsTrim (s : String) : String :=
  String.mk (((s.data.dropWhile Char.isWhitespace).reverse.dropWhile
    Char.isWhitespace).reverse)

/-- Code-point comparison of character lists (JavaScript string `<=`,
which `Array.sort()` uses on code units). -/
def strLeB : List Char → List Char → Bool
  | [], _ => true
  | _ :: _, [] => false
  | a :: as, b :: bs => if a = b then strLeB as bs else decide (a.toNat < b.toNat)

/-- Code-point comparison of strings. -/
def strLe (s t : String) : Bool := strLeB s.data t.data

/-- JavaScript `Array.prototype.sort()` on an array of strings. -/
def sortStrings (l : List String) : List String :=
  List.insertionSort (fun a b => strLe a b = true) l

/-- Injectivity: the value of `Char.toNat` determines the character. -/
def char_toNat_inj (a b : Char) (h : a.toNat = b.toNat) : a = b := by
  rw [← Char.ofNat_toNat a, ← Char.ofNat_toNat b, h]

/-- The code-point order is total. -/
def strLeB_total : ∀ x y : List Char, strLeB x y = true ∨ strLeB y x = true := by
  intro x
  induction x with
  | nil => intro y; exact Or.inl rfl
  | cons a as ih =>
    intro y
    cases y with
    | nil => exact Or.inr rfl
    | cons b bs =>
      by_cases hab : a = b
      · subst hab
        simp only [strLeB, if_pos rfl]
        exact ih bs
      · have hne : a.toNat ≠ b.toNat := fun h => hab (char_toNat_inj a b h)
        rcases Nat.lt_or_ge a.toNat b.toNat with h | h
        · left; simp [strLeB, hab, h]
        · right
          have hlt : b.toNat < a.toNat := lt_of_le_of_ne h (Ne.symm hne)
          simp [strLeB, Ne.symm hab, hlt]

/-- The code-point order is transitive. -/
def strLeB_trans : ∀ x y z : List Char, strLeB x y = true →
    strLeB y z = true → strLeB x z = true := by
  intro x
  induction x with
  | nil => intro y z _ _; rfl
  | cons a as ih =>
    intro y z h1 h2
    cases y with
    | nil => simp [strLeB] at h1
    | cons b bs =>
      cases z with
      | nil => simp [strLeB] at h2
      | cons c cs =>
        by_cases hab : a = b
        · subst hab
          simp only [strLeB, if_pos rfl] at h1
          by_cases hac : a = c
          · subst hac
            simp only [strLeB, if_pos rfl] at h2 ⊢
            exact ih bs cs h1 h2
          · simp only [strLeB, if_neg hac] at h2 ⊢
            exact h2
        · simp only [strLeB, if_neg hab] at h1
          have hab' : a.toNat < b.toNat := of_decide_eq_true h1
          by_cases hbc : b = c
          · subst hbc
            simp [strLeB, hab, hab']
          · simp only [strLeB, if_neg hbc] at h2
            have hbc' : b.toNat < c.toNat := of_decide_eq_true h2
            have hac' : a.toNat < c.toNat := Nat.lt_trans hab' hbc'
            have hac : a ≠ c := fun h =>
              absurd (congrArg Char.toNat h) (Nat.ne_of_lt hac')
            simp [strLeB, hac, hac']

/-- The code-point order is antisymmetric. -/
def strLeB_antisymm : ∀ x y : List Char, strLeB x y = true →
    strLeB y x = true → x = y := by
  intro x
  induction x with
  | nil =>
    intro y h1 h2
    cases y with
    | nil => rfl
    | cons b bs => simp [strLeB] at h2
  | cons a as ih =>
    intro y h1 h2
    cases y with
    | nil => simp [strLeB] at h1
    | cons b bs =>
      by_cases hab : a = b
      · subst hab
        simp only [strLeB, if_pos rfl] at h1 h2
        rw [ih bs h1 h2]
      · simp only [strLeB, if_neg hab, if_neg (Ne.symm hab)] at h1 h2
        have h1' := of_decide_eq_true h1
        have h2' := of_decide_eq_true h2
        omega

instance : IsTotal String (fun a b => strLe a b = true) :=
  ⟨fun a b => strLeB_total a.data b.data⟩

instance : IsTrans String (fun a b => strLe a b = true) :=
  ⟨fun a b c => strLeB_trans a.data b.data c.data⟩

instance : IsAntisymm String (fun a b => strLe a b = true) :=
  ⟨fun a b h1 h2 => by
    have h := strLeB_antisymm a.data b.data h1 h2
    cases a
    cases b
    exact congrArg String.mk h⟩

/-! ### Association lists with JavaScript `Map` semantics -/

/-- Model of `Map.get`: first (only) entry with the key. -/
def lookupAssoc {α : Type} : List (String × α) → String → Option α
  | [], _ => none
  | (k', v) :: rest, k => if k' = k then some v else lookupAssoc rest k

/-- Model of `Map.has`. -/
def hasKey {α : Type} : List (String × α) → String → Bool
  | [], _ => false
  | (k', _) :: rest, k => k' = k || hasKey rest k

/-- Model of `Map.set`: replace the entry in place if the key exists, else append. -/
def setAssoc {α : Type} : List (String × α) → String → α → List (String × α)
  | [], k, v => [(k, v)]
  | (k', v') :: rest, k, v =>
    if k' = k then (k, v) :: rest else (k', v') :: setAssoc rest k v

/-! ### storage.js — folder names -/

/-- The three-regex sanitisation in `getProjectFolderName` / `saveSpot`:
`replace(/[^a-z0-9]/gi,'_')`. -/
def jsSafeChar (c : Char) : Char := if c.isAlphanum then c else '_'

/-- Model of `replace(/_{2,}/g,'_')`: collapse runs of underscores. -/
def collapseUnders : List Char → List Char
  | [] => []
  | c :: rest =>
    match rest with
    | [] => [c]
    | d :: _ =>
      if c = '_' && d = '_' then collapseUnders rest else c :: collapseUnders rest

/-- Model of `replace(/^_|_$/g,'')`: strip a single leading and trailing underscore. -/
def stripEdges (l : List Char) : List Char :=
  let l1 := match l with
    | '_' :: t => t
    | _ => l
  match l1.getLast? with
  | some c => if c = '_' then l1.dropLast else l1
  | none => l1

/-- The full sanitisation chain applied to a display name. -/
def sanitizeName (s : String) : String :=
  String.mk (stripEdges (collapseUnders (s.data.map jsSafeChar)))

/-- Model of `getProjectFolderName(project)`: derives the folder name from the
project's (current) `name` and the first six characters of its `id`. -/
def getProjectFolderName : Option Project → String
  | none => "Unassigned"
  | some p =>
    let safeName := sanitizeName p.name
    (if safeName = "" then "Project" else safeName) ++ "_" ++ strTakeN p.id 6

/-! ### storage.js — signature and conflict detection -/

/-- One `"id_timestamp"` token of `generateDataSignature`. -/
def entityToken (idPart : Option String) (t : Option Nat) : String :=
  tokStr idPart ++ "_" ++ tokNat t

/-- The per-project string of `generateDataSignature`. -/
def sigOfProject (p : Project) : String :=
  let spots := String.intercalate ","
    (sortStrings (p.spots.map (fun s => entityToken s.spotId s.timestamp)))
  let sites := String.intercalate ","
    (sortStrings (p.sites.map (fun s => entityToken s.id s.timestamp)))
  let routes := String.intercalate ","
    (sortStrings (p.routes.map (fun r => entityToken r.id r.timestamp)))
  let files := String.intercalate ","
    (sortStrings (p.external_files.map (fun f => entityToken f.id f.timestamp)))
  "Project:" ++ p.id ++ "_" ++ p.name ++ "|Spots:" ++ spots ++ "|Sites:" ++
    sites ++ "|Routes:" ++ routes ++ "|Files:" ++ files

/-- Model of `generateDataSignature(data)`. -/
def generateDataSignature : Option RawDoc → String
  | none => "empty"
  | some (.flat _) => "empty"
  | some (.proj d) =>
    String.intercalate "||" (sortStrings (d.projects.map sigOfProject))

/-- Model of `checkForRemoteUpdates`: once both documents are in hand, a
`master-sync-conflict` event is raised iff the signatures differ (equal
signatures return early with "up to date"). -/
def conflictRaised (localDoc remoteDoc : Option RawDoc) : Bool :=
  !(generateDataSignature localDoc == generateDataSignature remoteDoc)

/-! ### storage.js — bootstrap and migration -/

/-- Model of `ensureMasterJson`: load, migrate a flat document, repair an orphaned
`currentProjectId`, or create a fresh default project. -/
def ensureMasterJsonFn (loaded : Option RawDoc) (fresh : String) (now : Nat) :
    MasterDoc :=
  match loaded with
  | some (.flat d) =>
    { currentProjectId := some fresh
      projects := [{ id := fresh, name := "Default Project",
                     spots := d.spots, routes := d.routes, sites := d.sites,
                     external_files := d.external_files,
                     created_at := some (jsOrNat d.metadata.created_at now) }]
      metadata := { d.metadata with schema_version := some 2 } }
  | some (.proj d) =>
    if d.projects.any (fun p => d.currentProjectId = some p.id) then d
    else
      { d with currentProjectId :=
          match d.projects.head? with
          | some p => if p.id = "" then none else some p.id
          | none => none }
  | none =>
    { currentProjectId := some fresh
      projects := [{ id := fresh, name := "Untitled Project",
                     created_at := some now }]
      metadata := { created_at := some now, schema_version := some 2 } }

/-! ### storage.js — active project and save operations -/

/-- Model of `getActiveProject`: the project referenced by `currentProjectId`,
falling back to the first project.  Returns the index so that updates can
be written back. -/
def getActiveIdx (d : MasterDoc) : Option Nat :=
  if d.projects.isEmpty then none
  else
    match d.projects.findIdx? (fun p => d.currentProjectId = some p.id) with
    | some i => some i
    | none => some 0

/-- Model of `saveSpot(spotData, imageBlob, audioBlob)`.  The two booleans say
whether media blobs were captured; file contents are irrelevant to the
engine's state, only the relative paths it constructs matter. -/
def saveSpotFn (d : MasterDoc) (spotData : Item) (imageBlob audioBlob : Bool)
    (fresh : String) (now : Nat) : Except String MasterDoc :=
  match getActiveIdx d with
  | none => .error "No active project. Please initialise storage first."
  | some i =>
    match d.projects[i]? with
    | none => .error "No active project. Please initialise storage first."
    | some project =>
      let projectFolder := getProjectFolderName (some project)
      let spotId := match spotData.spotId with
        | some s => if s = "" then fresh else s
        | none => fresh
      let safeSpotName := sanitizeName
        ((jsOrStr spotData.name (some ("Spot_" ++ strTakeN spotId 8))).getD "")
      let imgPath := if imageBlob then
          some (String.intercalate "/" [projectFolder, "spots", safeSpotName,
            "images", safeSpotName ++ "_cover.jpg"])
        else none
      let audioPath := if audioBlob then
          some (String.intercalate "/" [projectFolder, "spots", safeSpotName,
            "audio", safeSpotName ++ "_note.webm"])
        else none
      let newSpot : Item :=
        { spotData with
          spotId := some spotId
          projectId := some project.id
          timestamp := some now
          image_local_filename := imgPath
          audio_local_filename := audioPath }
      let project1 := { project with spots := project.spots ++ [newSpot] }
      .ok { d with projects := d.projects.set i project1 }

/-- Model of `saveSite(siteName, kmlFile)`. -/
def saveSiteFn (d : MasterDoc) (siteName : String) (fresh : String)
    (now : Nat) : Except String MasterDoc :=
  match getActiveIdx d with
  | none => .error "No active project."
  | some i =>
    match d.projects[i]? with
    | none => .error "No active project."
    | some project =>
      let projectFolder := getProjectFolderName (some project)
      let kmlPath := String.intercalate "/"
        [projectFolder, "sites", siteName ++ ".kml"]
      let newSite : Item :=
        { id := some fresh
          projectId := some project.id
          name := some siteName
          kml_filename := some kmlPath
          timestamp := some now }
      let project1 := { project with sites := project.sites ++ [newSite] }
      .ok { d with projects := d.projects.set i project1 }

/-- Model of `saveRoute(routeData)`. -/
def saveRouteFn (d : MasterDoc) (routeData : Item) (fresh : String)
    (now : Nat) : Except String MasterDoc :=
  match getActiveIdx d with
  | none => .error "No active project."
  | some i =>
    match d.projects[i]? with
    | none => .error "No active project."
    | some project =>
      let newRoute : Item :=
        { routeData with
          id := some fresh
          projectId := some project.id
          timestamp := some now }
      let project1 := { project with routes := project.routes ++ [newRoute] }
      .ok { d with projects := d.projects.set i project1 }

/-- Model of `saveExternalFile(fileObj, spotIds)`.  An empty `spotIds` crashes the
source (`spotIds[0].substring` on `undefined`), modelled as an error. -/
def saveExternalFileFn (d : MasterDoc) (fileName fileType : String)
    (spotIds : List String) (fresh : String) (now : Nat) :
    Except String MasterDoc :=
  match getActiveIdx d with
  | none => .error "No active project."
  | some i =>
    match d.projects[i]? with
    | none => .error "No active project."
    | some project =>
      match spotIds.head? with
      | none => .error "TypeError"
      | some primary =>
        let spot := project.spots.find? (fun s => s.spotId = some primary)
        let safeSpotName := sanitizeName
          ((jsOrStr (spot.bind (fun s => s.name))
            (some ("Spot_" ++ strTakeN primary 8))).getD "")
        let savedPath := String.intercalate "/"
          [getProjectFolderName (some project), "spots", safeSpotName,
            "external_data", fileName]
        let newEntry : Item :=
          { id := some fresh
            name := some fileName
            rest := fileType
            linked_spots := spotIds
            projectId := some project.id
            timestamp := some now
            sync_status := some "pending"
            local_path := some savedPath }
        let project1 :=
          { project with external_files := project.external_files ++ [newEntry] }
        .ok { d with projects := d.projects.set i project1 }

/-! ### storage.js — project management -/

/-- Model of `createProject(name)`. -/
def createProjectFn (d : MasterDoc) (name : Option String) (fresh : String)
    (now : Nat) : MasterDoc :=
  let newProject : Project :=
    { id := fresh
      name := (jsOrStr name (some "Untitled Project")).getD ""
      created_at := some now }
  { d with
    projects := d.projects ++ [newProject]
    currentProjectId := some fresh }

/-- Model of `switchProject(projectId)`. -/
def switchProjectFn (d : MasterDoc) (projectId : String) :
    Except String MasterDoc :=
  if d.projects.any (fun p => p.id = projectId) then
    .ok { d with currentProjectId := some projectId }
  else .error "Project not found"

/-- Model of `renameProject(projectId, newName)`. -/
def renameProjectFn (d : MasterDoc) (projectId : String)
    (newName : Option String) : Except String MasterDoc :=
  match d.projects.findIdx? (fun p => p.id = projectId) with
  | none => .error "Project not found"
  | some i =>
    match d.projects[i]? with
    | none => .error "Project not found"
    | some project =>
      match newName with
      | none => .error "Name cannot be empty"
      | some nm =>
        if nm = "" ∨ jsTrim nm = "" then .error "Name cannot be empty"
        else
          let project1 := { project with name := jsTrim nm }
          .ok { d with projects := d.projects.set i project1 }

/-- Model of `deleteProject(projectId)`, returning the resulting module state and
the error thrown, if any.  Deleting every copy of the active project's id
from a duplicated-id document crashes the source while reading
`projects[0].id` — after `projects` has already been reassigned — which
the `"TypeError"` branch mirrors. -/
def deleteProjectFn (d : MasterDoc) (projectId : String) :
    MasterDoc × Option String :=
  if d.projects.length ≤ 1 then
    (d, some "Cannot delete the last remaining project.")
  else
    let ps := d.projects.filter (fun p => p.id ≠ projectId)
    if d.currentProjectId = some projectId then
      match ps.head? with
      | some p => ({ d with projects := ps, currentProjectId := some p.id }, none)
      | none => ({ d with projects := ps }, some "TypeError")
    else ({ d with projects := ps }, none)

/-! ### storage.js — conflict resolution and merge -/

/-- The `pull` branch of `resolveMasterConflict`: adopt the remote
document, migrating it in memory when it is still flat. -/
def resolvePullFn (remote : RawDoc) (fresh : String) (now : Nat) : MasterDoc :=
  match remote with
  | .proj d => d
  | .flat d =>
    { currentProjectId := some fresh
      projects := [{ id := fresh, name := "Default Project",
                     spots := d.spots, routes := d.routes, sites := d.sites,
                     external_files := d.external_files,
                     created_at := some now }]
      metadata := { d.metadata with schema_version := some 2 } }

/-- Model of `normaliseToProjects` inside `mergeDatasets`. -/
def normaliseToProjects (fresh : String) (now : Nat) : RawDoc → MasterDoc
  | .proj d => d
  | .flat d =>
    { currentProjectId := some fresh
      projects := [{ id := fresh, name := "Default Project",
                     spots := d.spots, routes := d.routes, sites := d.sites,
                     external_files := d.external_files,
                     created_at := some (jsOrNat d.metadata.created_at now) }]
      metadata := d.metadata }

/-- Model of `item.spotId || item.id` followed by the `if (!id) return` guard of
`mergeArray`. -/
def keyOf (it : Item) : Option String :=
  match jsOrStr it.spotId it.id with
  | some s => if s = "" then none else some s
  | none => none

/-- One iteration of `mergeArray`'s forEach: keep the already-kept entry
unless the new item's timestamp is strictly larger. -/
def mergeStep (acc : List (String × Item)) (it : Item) : List (String × Item) :=
  match keyOf it with
  | none => acc
  | some k =>
    match lookupAssoc acc k with
    | none => setAssoc acc k it
    | some existing =>
      if timeOf it.timestamp > timeOf existing.timestamp then setAssoc acc k it
      else acc

/-- Model of `mergeArray(arr1, arr2)`: id-keyed last-write-wins union. -/
def mergeArray (arr1 arr2 : List Item) : List Item :=
  ((arr1 ++ arr2).foldl mergeStep []).map (fun e => e.2)

/-- The merged record for a project present on both sides. -/
def mergedProject (lp rp : Project) : Project :=
  { lp with
    spots := mergeArray lp.spots rp.spots
    routes := mergeArray lp.routes rp.routes
    sites := mergeArray lp.sites rp.sites
    external_files := mergeArray lp.external_files rp.external_files }

/-- One iteration over the remote projects in `mergeDatasets`. -/
def projStep (acc : List (String × Project)) (rp : Project) :
    List (String × Project) :=
  match lookupAssoc acc rp.id with
  | some lp => setAssoc acc rp.id (mergedProject lp rp)
  | none => setAssoc acc rp.id rp

/-- Model of `mergeDatasets(local, remote)`.  The fresh ids and times parametrise
`crypto.randomUUID()` / `new Date()` in `normaliseToProjects` and the
`last_merged` stamp. -/
def mergeDatasets (freshL freshR : String) (nowL nowR nowM : Nat)
    (localDoc remoteDoc : RawDoc) : MasterDoc :=
  let l := normaliseToProjects freshL nowL localDoc
  let r := normaliseToProjects freshR nowR remoteDoc
  let m0 := l.projects.foldl (fun acc p => setAssoc acc p.id p)
    ([] : List (String × Project))
  let m1 := r.projects.foldl projStep m0
  let md := { l.metadata with last_merged := some nowM, schema_version := some 2 }
  { currentProjectId := l.currentProjectId
    projects := m1.map (fun e => e.2)
    metadata := md }

/-! ### media_sync.js — expected files, report, status -/

/-- A Drive listing entry: only the file id and the
`appProperties.relativePath` tag matter to the sync algorithms. -/
structure DriveFile where
  id : String
  relativePath : Option String := none
deriving DecidableEq, Repr

/-- A divergence record of `generateSyncReport`. -/
structure ReportItem where
  name : String
  isLocal : Bool
  isDrive : Bool
  driveId : Option String := none
deriving DecidableEq, Repr

/-- Model of `if (x) push(x)` on an optional path field (`""` is falsy). -/
def pushIf (o : Option String) : List String :=
  match o with
  | some f => if f = "" then [] else [f]
  | none => []

/-- The expected file set of a project: spot images and audio, site kml
files, external-file local paths, in source push order. -/
def expectedFilesOf (p : Project) : List String :=
  (p.spots.flatMap (fun s =>
    pushIf s.image_local_filename ++ pushIf s.audio_local_filename)) ++
  (p.sites.flatMap (fun s => pushIf s.kml_filename)) ++
  (p.external_files.flatMap (fun f => pushIf f.local_path))

/-- The `driveMap` of `generateSyncReport`: remote files whose tagged path
lies under the project folder, keyed by that path. -/
def buildDriveMap (driveFiles : List DriveFile) (projectFolder : String) :
    List (String × DriveFile) :=
  driveFiles.foldl (fun m f =>
    match f.relativePath with
    | some rp =>
      if strStartsWith rp (projectFolder ++ "/") then setAssoc m rp f else m
    | none => m) []

/-- Model of `appState.projects.find(p => p.id === projectId)` for a possibly
missing project id. -/
def findByOptId (ps : List Project) : Option String → Option Project
  | some pid => ps.find? (fun p => p.id = pid)
  | none => none

/-- Model of `generateSyncReport(targetProjectId)`.  `localExists` abstracts
`FS.checkFileExists`; `driveFiles` abstracts `listAllDriveFiles()`. -/
def generateSyncReport (state : MasterDoc) (target : Option String)
    (driveFiles : List DriveFile) (localExists : String → Bool) :
    List ReportItem :=
  match findByOptId state.projects (jsOrStr target state.currentProjectId) with
  | none => []
  | some project =>
    let projectFolder := getProjectFolderName (some project)
    let driveMap := buildDriveMap driveFiles projectFolder
    let expected := expectedFilesOf project
    let part1 : List ReportItem := expected.map (fun relPath =>
      { name := relPath
        isLocal := localExists relPath
        isDrive := hasKey driveMap relPath
        driveId := (lookupAssoc driveMap relPath).map (fun f => f.id) })
    let part2 : List ReportItem :=
      (driveMap.filter (fun e => !(expected.elem e.1))).map (fun e =>
        { name := e.1, isLocal := false, isDrive := true, driveId := some e.2.id })
    part1 ++ part2

/-- The remote path set of `getAllProjectsSyncStatus`:
`.map(f => f.appProperties?.relativePath).filter(Boolean)`. -/
def drivePathsOf (driveFiles : List DriveFile) : List String :=
  (driveFiles.filterMap (fun f => f.relativePath)).filter (fun s => s ≠ "")

/-- The per-project body of `getAllProjectsSyncStatus`: the strict two-way
check. -/
def projectSynced (p : Project) (drivePaths : List String)
    (localExists : String → Bool) : Bool :=
  let expected := expectedFilesOf p
  let projectFolder := getProjectFolderName (some p)
  let pass1 := expected.all (fun path =>
    drivePaths.elem path && localExists path)
  if pass1 then
    drivePaths.all (fun dp =>
      !(strStartsWith dp (projectFolder ++ "/")) || expected.elem dp)
  else false

/-- Model of `getAllProjectsSyncStatus()`: the `statuses` object keyed by project
id. -/
def getAllProjectsSyncStatus (state : MasterDoc)
    (driveFiles : List DriveFile) (localExists : String → Bool) :
    List (String × Bool) :=
  let drivePaths := drivePathsOf driveFiles
  state.projects.foldl
    (fun st p => setAssoc st p.id (projectSynced p drivePaths localExists)) []

/-! ### media_sync.js — batch executor -/

/-- An input item of `syncBatch` (a divergence record). -/
structure BatchItem where
  name : String
  driveId : Option String := none
deriving DecidableEq, Repr

/-- The detail of one `sync-progress` event. -/
structure ProgressEvent where
  percent : Nat
  currentFile : String
  fails : Nat
deriving DecidableEq, Repr

/-- The value returned by a completed batch. -/
structure BatchResult where
  success : Nat
  failed : Nat
deriving DecidableEq, Repr

/-- The observable outcome of a completed `syncBatch` run: the returned
counts, the `sync-progress` events in emission order, and the busy flag
after completion. -/
structure BatchRun where
  result : BatchResult
  progress : List ProgressEvent
  syncingAfter : Bool
deriving DecidableEq, Repr

/-- Model of `Math.round(num / den * 100)` for non-negative arguments. -/
def jsRound100 (num den : Nat) : Nat := (200 * num + den) / (2 * den)

/-- Whether processing one item succeeds.  `io` abstracts the outcome of
the awaited `syncUp` / `syncDown` network I/O; a pull item without a
Drive id always fails (`throw new Error("Missing Drive ID")`); an unknown
direction runs neither branch and counts as success. -/
def itemSucceeds (direction : String) (it : BatchItem) (ioOk : Bool) : Bool :=
  if direction = "push" then ioOk
  else if direction = "pull" then
    match it.driveId with
    | none => false
    | some _ => ioOk
  else true

/-- Model of `syncBatch(items, direction)`.  `isSyncing` is the module-level
single-flight flag, true for the whole duration of a running batch; a
call made while it is set is the "second invocation while the first is in
flight". -/
def syncBatch (isSyncing : Bool) (items : List BatchItem) (direction : String)
    (io : Nat → Bool) : Except String BatchRun :=
  if isSyncing then .error "A sync operation is already running in the background."
  else
    let n := items.length
    let final := items.enum.foldl
      (fun (st : Nat × Nat × List ProgressEvent) (pair : Nat × BatchItem) =>
        let ok := itemSucceeds direction pair.2 (io pair.1)
        let succ := if ok then st.1 + 1 else st.1
        let fail := if ok then st.2.1 else st.2.1 + 1
        let ev : ProgressEvent :=
          { percent := jsRound100 (pair.1 + 1) n
            currentFile := pair.2.name
            fails := fail }
        (succ, fail, st.2.2 ++ [ev]))
      (0, 0, [])
    .ok { result := { success := final.1, failed := final.2.1 }
          progress := final.2.2
          syncingAfter := false }

/-! ### Validity predicates -/

/-- The repaired-`currentProjectId` invariant: whenever any project
exists, `currentProjectId` names one of them. -/
def currentOk (d : MasterDoc) : Prop :=
  d.projects ≠ [] → ∃ p ∈ d.projects, d.currentProjectId = some p.id

instance (d : MasterDoc) : Decidable (currentOk d) := by
  unfold currentOk; infer_instance

/-- An entity array as the data model guarantees it: every entry carries
an id and ids are unique within the array. -/
def arrOk (l : List Item) : Prop :=
  (∀ it ∈ l, (keyOf it).isSome = true) ∧ (l.map keyOf).Nodup

instance (l : List Item) : Decidable (arrOk l) := by
  unfold arrOk; infer_instance

/-- A master document satisfying the data-model invariants that the
algebraic merge properties depend on: unique project ids and well-keyed
entity arrays. -/
def docOk (d : MasterDoc) : Prop :=
  (d.projects.map (fun p => p.id)).Nodup ∧
  ∀ p ∈ d.projects,
    arrOk p.spots ∧ arrOk p.routes ∧ arrOk p.sites ∧ arrOk p.external_files

instance (d : MasterDoc) : Decidable (docOk d) := by
  unfold docOk; infer_instance

/-- How `mergeStep` updates the entry kept at key `k`. -/
def updKey (k : String) (w : Option Item) (it : Item) : Option Item :=
  if keyOf it = some k then
    match w with
    | none => some it
    | some c => if timeOf it.timestamp > timeOf c.timestamp then some it else w
  else w

/-- Every entry of the fold's map is stored under its own key. -/
def entriesKeyOk (l : List (String × Item)) : Prop :=
  ∀ e ∈ l, keyOf e.2 = some e.1

/-! ### Concrete documents used to instantiate the theorems -/

/-- A local spot, older than its remote counterpart. -/
def exSpotLocal : Item := { spotId := some "x", timestamp := some 5, rest := "local" }

/-- The remote version of the same spot, strictly newer. -/
def exSpotRemote : Item := { spotId := some "x", timestamp := some 9, rest := "remote" }

/-- A local site entry. -/
def exSiteLocal : Item := { id := some "x", timestamp := some 7, rest := "local" }

/-- The remote version of the same site with an equal timestamp. -/
def exSiteRemote : Item := { id := some "x", timestamp := some 7, rest := "remote" }

/-- The local project holding `exSpotLocal`. -/
def exProjSpotL : Project := { id := "p1", name := "P", spots := [exSpotLocal] }

/-- The remote project holding `exSpotRemote`. -/
def exProjSpotR : Project := { id := "p1", name := "P", spots := [exSpotRemote] }

/-- The local project holding `exSiteLocal`. -/
def exProjSiteL : Project := { id := "p1", name := "P", sites := [exSiteLocal] }

/-- The remote project holding `exSiteRemote`. -/
def exProjSiteR : Project := { id := "p1", name := "P", sites := [exSiteRemote] }

/-- Local master document for the merge examples (spot case). -/
def exDocSpotL : MasterDoc :=
  { currentProjectId := some "p1", projects := [exProjSpotL] }

/-- Remote master document for the merge examples (spot case). -/
def exDocSpotR : MasterDoc :=
  { currentProjectId := some "p1", projects := [exProjSpotR] }

/-- Local master document for the merge examples (site case). -/
def exDocSiteL : MasterDoc :=
  { currentProjectId := some "p1", projects := [exProjSiteL] }

/-- Remote master document for the merge examples (site case). -/
def exDocSiteR : MasterDoc :=
  { currentProjectId := some "p1", projects := [exProjSiteR] }

/-- A project whose id is disjoint from `exProjSpotL`'s. -/
def exProjQ : Project := { id := "q1", name := "Q" }

/-- A master document with a project id disjoint from `exDocSpotL`'s. -/
def exDocQ : MasterDoc :=
  { currentProjectId := some "q1", projects := [exProjQ] }

instance {ε α : Type} [DecidableEq ε] [DecidableEq α] :
    DecidableEq (Except ε α) := fun x y =>
  match x, y with
  | .ok a, .ok b =>
    if h : a = b then isTrue (by rw [h])
    else isFalse (fun hh => h (Except.ok.inj hh))
  | .error a, .error b =>
    if h : a = b then isTrue (by rw [h])
    else isFalse (fun hh => h (Except.error.inj hh))
  | .ok _, .error _ => isFalse (fun hh => Except.noConfusion hh)
  | .error _, .ok _ => isFalse (fun hh => Except.noConfusion hh)

/-- The part of the load guard in `ensureMasterJson` that the repair
depends on: when the loaded document is project-based, its first project
(if any) has a non-empty id, as every id the engine ever writes is a
UUID.  (`projects[0]?.id || null` would otherwise repair the reference to
`null` while projects exist.) -/
def loadGuardOkB : Option RawDoc → Bool
  | some (.proj d) =>
    match d.projects.head? with
    | some p => p.id != ""
    | none => true
  | _ => true

/-- Everything `generateDataSignature` reads from one project: its id,
its name, and the four sorted entity token lists. -/
def projKeyTuple (p : Project) :
    String × String × List String × List String × List String × List String :=
  (p.id, p.name,
    sortStrings (p.spots.map (fun s => entityToken s.spotId s.timestamp)),
    sortStrings (p.sites.map (fun s => entityToken s.id s.timestamp)),
    sortStrings (p.routes.map (fun r => entityToken r.id r.timestamp)),
    sortStrings (p.external_files.map (fun f => entityToken f.id f.timestamp)))

set_option synthInstance.maxSize 512 in
instance :
    DecidableEq
      (String × String × List String × List String × List String ×
        List String) :=
  fun a b => inferInstanceAs (Decidable (a = b))

/-- Rendering of `projKeyTuple` into the project's signature string. -/
def renderProjKey
    (t : String × String × List String × List String × List String ×
      List String) : String :=
  "Project:" ++ t.1 ++ "_" ++ t.2.1 ++ "|Spots:" ++
    String.intercalate "," t.2.2.1 ++ "|Sites:" ++
    String.intercalate "," t.2.2.2.1 ++ "|Routes:" ++
    String.intercalate "," t.2.2.2.2.1 ++ "|Files:" ++
    String.intercalate "," t.2.2.2.2.2

/-- The project of the C1 analysis before renaming. -/
def exOldProject : Project := { id := "abcdef-1234", name := "Old Name" }

/-- The same project after `renameProject` to "New Name". -/
def exRenamedProject : Project := { exOldProject with name := "New Name" }

/-- A one-project document holding `exOldProject`. -/
def exOldDoc : MasterDoc :=
  { currentProjectId := some "abcdef-1234", projects := [exOldProject] }

/-- A remote master document whose `currentProjectId` names no project. -/
def exBadRemote : MasterDoc :=
  { currentProjectId := some "zzz", projects := [exProjQ] }

/-- Two documents with identical (empty) entity ids and timestamps whose
projects differ only in display name. -/
def exSigA : MasterDoc :=
  { currentProjectId := some "p1", projects := [{ id := "p1", name := "A" }] }

/-- See `exSigA`. -/
def exSigB : MasterDoc :=
  { currentProjectId := some "p1", projects := [{ id := "p1", name := "B" }] }

/-- A project that references zero entities. -/
def exEmptyProj : Project := { id := "p1", name := "P" }

/-- A one-project document around `exEmptyProj`. -/
def exEmptyDoc : MasterDoc :=
  { currentProjectId := some "p1", projects := [exEmptyProj] }

/-- A remote file tagged under `exEmptyProj`'s folder (`P_p1/`). -/
def exStray : DriveFile := { id := "d1", relativePath := some "P_p1/stray.jpg" }

/-- The remote-only report record `exStray` produces. -/
def exStrayRecord : ReportItem :=
  { name := "P_p1/stray.jpg", isLocal := false, isDrive := true,
    driveId := some "d1" }

/-- A copy of `exSpotLocal` that differs only in fields the signature
ignores. -/
def exSpotLocalVariant : Item :=
  { spotId := some "x", timestamp := some 5, rest := "other-fields-differ" }

/-- A copy of `exProjSpotL` with the same id, name and entity tokens but a
different `created_at` and a different spot payload. -/
def exProjSpotLVariant : Project :=
  { id := "p1", name := "P", spots := [exSpotLocalVariant], created_at := some 99 }

/-- Two projects in one order. -/
def exPermA : MasterDoc :=
  { currentProjectId := some "p1", projects := [exProjSpotL, exProjQ] }

/-- The same projects reordered, with ignored fields changed. -/
def exPermB : MasterDoc :=
  { currentProjectId := none, projects := [exProjQ, exProjSpotLVariant] }

/-- A project with one expected file (a spot cover image). -/
def exSyncProj : Project :=
  { id := "p1", name := "P",
    spots := [{ spotId := some "s1", timestamp := some 1,
                image_local_filename := some "P_p1/spots/S/images/S_cover.jpg" }] }

/-- A one-project document around `exSyncProj`. -/
def exSyncDoc : MasterDoc :=
  { currentProjectId := some "p1", projects := [exSyncProj] }

/-! ### Association-list lemmas -/

theorem lookupAssoc_setAssoc_self {α : Type} (l : List (String × α)) (k : String)
    (v : α) : lookupAssoc (setAssoc l k v) k = some v := by
  induction l with
  | nil => simp [setAssoc, lookupAssoc]
  | cons e rest ih =>
    by_cases h : e.1 = k
    · simp [setAssoc, h, lookupAssoc]
    · simp [setAssoc, h, lookupAssoc, ih]

theorem lookupAssoc_setAssoc_ne {α : Type} (l : List (String × α)) (k k' : String)
    (v : α) (h : k' ≠ k) :
    lookupAssoc (setAssoc l k v) k' = lookupAssoc l k' := by
  induction l with
  | nil => simp [setAssoc, lookupAssoc, Ne.symm h]
  | cons e rest ih =>
    by_cases he : e.1 = k
    · simp [setAssoc, he, lookupAssoc, Ne.symm h]
    · simp [setAssoc, he, lookupAssoc, ih]

theorem hasKey_setAssoc {α : Type} (l : List (String × α)) (k k' : String)
    (v : α) : hasKey (setAssoc l k v) k' = (hasKey l k' || (k = k')) := by
  induction l with
  | nil => simp [setAssoc, hasKey]
  | cons e rest ih =>
    by_cases he : e.1 = k
    · subst he
      by_cases hk : e.1 = k'
      · simp [setAssoc, hasKey, hk]
      · simp [setAssoc, hasKey, hk, ih]
    · simp only [setAssoc, he, if_neg he, hasKey, ih]
      cases hk : decide (e.1 = k') <;> simp_all [Bool.or_assoc]

theorem lookupAssoc_eq_none_of_not_hasKey {α : Type} (l : List (String × α))
    (k : String) (h : hasKey l k = false) : lookupAssoc l k = none := by
  induction l with
  | nil => rfl
  | cons e rest ih =>
    simp only [hasKey, Bool.or_eq_false_iff, decide_eq_false_iff_not] at h
    simp [lookupAssoc, h.1, ih h.2]

theorem hasKey_of_lookupAssoc {α : Type} (l : List (String × α)) (k : String)
    (v : α) (h : lookupAssoc l k = some v) : hasKey l k = true := by
  induction l with
  | nil => simp [lookupAssoc] at h
  | cons e rest ih =>
    by_cases he : e.1 = k
    · simp [hasKey, he]
    · simp only [lookupAssoc, if_neg he] at h
      simp [hasKey, ih h]

theorem setAssoc_of_not_hasKey {α : Type} (l : List (String × α)) (k : String)
    (v : α) (h : hasKey l k = false) : setAssoc l k v = l ++ [(k, v)] := by
  induction l with
  | nil => rfl
  | cons e rest ih =>
    simp only [hasKey, Bool.or_eq_false_iff, decide_eq_false_iff_not] at h
    simp [setAssoc, h.1, ih h.2]

theorem mem_of_lookupAssoc {α : Type} (l : List (String × α)) (k : String)
    (v : α) (h : lookupAssoc l k = some v) : (k, v) ∈ l := by
  induction l with
  | nil => simp [lookupAssoc] at h
  | cons e rest ih =>
    obtain ⟨k0, v0⟩ := e
    by_cases he : k0 = k
    · simp only [lookupAssoc, if_pos he] at h
      have hv : v0 = v := Option.some.inj h
      subst hv
      subst he
      exact List.mem_cons_self _ _
    · simp only [lookupAssoc, if_neg he] at h
      exact List.mem_cons_of_mem _ (ih h)

theorem mem_values_of_lookupAssoc {α : Type} (l : List (String × α)) (k : String)
    (v : α) (h : lookupAssoc l k = some v) : v ∈ l.map (fun e => e.2) :=
  List.mem_map.2 ⟨(k, v), mem_of_lookupAssoc l k v h, rfl⟩

/-! ### The entry kept at one key by `mergeArray`'s fold -/

theorem lookupAssoc_mergeStep (acc : List (String × Item)) (it : Item)
    (k : String) :
    lookupAssoc (mergeStep acc it) k = updKey k (lookupAssoc acc k) it := by
  unfold mergeStep updKey
  cases hko : keyOf it with
  | none => simp [hko]
  | some k' =>
    by_cases hkk : k' = k
    · subst hkk
      cases hl : lookupAssoc acc k' with
      | none => simp [hl, lookupAssoc_setAssoc_self]
      | some ex =>
        by_cases ht : timeOf it.timestamp > timeOf ex.timestamp
        · simp [hl, ht, lookupAssoc_setAssoc_self]
        · simp [hl, ht]
    · have hne : some k' ≠ some k := by simp [hkk]
      cases hl : lookupAssoc acc k' with
      | none => simp [hl, hne, lookupAssoc_setAssoc_ne _ _ _ _ (Ne.symm hkk)]
      | some ex =>
        by_cases ht : timeOf it.timestamp > timeOf ex.timestamp
        · simp [hl, ht, hne, lookupAssoc_setAssoc_ne _ _ _ _ (Ne.symm hkk)]
        · simp [hl, ht, hne]

theorem lookupAssoc_mergeFold (L : List Item) (acc : List (String × Item))
    (k : String) :
    lookupAssoc (L.foldl mergeStep acc) k =
      L.foldl (updKey k) (lookupAssoc acc k) := by
  induction L generalizing acc with
  | nil => rfl
  | cons it rest ih =>
    simp only [List.foldl_cons, ih, lookupAssoc_mergeStep]

theorem updFold_keep (k : String) (a : Item) (L : List Item)
    (h : ∀ c ∈ L, keyOf c = some k →
      timeOf c.timestamp ≤ timeOf a.timestamp) :
    L.foldl (updKey k) (some a) = some a := by
  induction L with
  | nil => rfl
  | cons it rest ih =>
    have hstep : updKey k (some a) it = some a := by
      unfold updKey
      by_cases hk : keyOf it = some k
      · have := h it (List.mem_cons_self _ _) hk
        simp [hk, Nat.not_lt.2 this]
      · simp [hk]
    simp only [List.foldl_cons, hstep]
    exact ih (fun c hc hck => h c (List.mem_cons_of_mem _ hc) hck)

theorem updFold_overtake (k : String) (b : Item) (hb : keyOf b = some k)
    (L : List Item) (c : Item)
    (hc : timeOf c.timestamp < timeOf b.timestamp)
    (hmem : b ∈ L)
    (hdom : ∀ x ∈ L, keyOf x = some k →
      x = b ∨ timeOf x.timestamp < timeOf b.timestamp) :
    L.foldl (updKey k) (some c) = some b := by
  induction L generalizing c with
  | nil => cases hmem
  | cons it rest ih =>
    by_cases hk : keyOf it = some k
    · by_cases hib : it = b
      · subst hib
        have hstep : updKey k (some c) it = some it := by
          unfold updKey; simp [hk, hc]
        simp only [List.foldl_cons, hstep]
        exact updFold_keep k it rest (fun x hx hxk => by
          rcases hdom x (List.mem_cons_of_mem _ hx) hxk with h1 | h1
          · exact le_of_eq (congrArg (fun y => timeOf y.timestamp) h1)
          · exact Nat.le_of_lt h1)
      · have hlt : timeOf it.timestamp < timeOf b.timestamp := by
          rcases hdom it (List.mem_cons_self _ _) hk with h1 | h1
          · exact absurd h1 hib
          · exact h1
        have hmem' : b ∈ rest := by
          rcases List.mem_cons.1 hmem with h1 | h1
          · exact absurd h1.symm hib
          · exact h1
        have hdom' : ∀ x ∈ rest, keyOf x = some k →
            x = b ∨ timeOf x.timestamp < timeOf b.timestamp :=
          fun x hx hxk => hdom x (List.mem_cons_of_mem _ hx) hxk
        have hstep : updKey k (some c) it =
            if timeOf it.timestamp > timeOf c.timestamp then some it
            else some c := by
          unfold updKey; simp [hk]
        simp only [List.foldl_cons, hstep]
        by_cases ht : timeOf it.timestamp > timeOf c.timestamp
        · simp only [if_pos ht]
          exact ih it hlt hmem' hdom'
        · simp only [if_neg ht]
          exact ih c hc hmem' hdom'
    · have hmem' : b ∈ rest := by
        rcases List.mem_cons.1 hmem with h1 | h1
        · exact absurd (h1 ▸ hb) hk
        · exact h1
      have hstep : updKey k (some c) it = some c := by unfold updKey; simp [hk]
      simp only [List.foldl_cons, hstep]
      exact ih c hc hmem'
        (fun x hx hxk => hdom x (List.mem_cons_of_mem _ hx) hxk)

theorem updFold_wins (k : String) (b : Item) (hb : keyOf b = some k)
    (L : List Item) (hmem : b ∈ L)
    (hdom : ∀ x ∈ L, keyOf x = some k →
      x = b ∨ timeOf x.timestamp < timeOf b.timestamp) :
    L.foldl (updKey k) none = some b := by
  induction L with
  | nil => cases hmem
  | cons it rest ih =>
    by_cases hk : keyOf it = some k
    · have hstep : updKey k none it = some it := by unfold updKey; simp [hk]
      simp only [List.foldl_cons, hstep]
      rcases hdom it (List.mem_cons_self _ _) hk with h1 | h1
      · subst h1
        exact updFold_keep k it rest (fun x hx hxk => by
          rcases hdom x (List.mem_cons_of_mem _ hx) hxk with h2 | h2
          · exact le_of_eq (congrArg (fun y => timeOf y.timestamp) h2)
          · exact Nat.le_of_lt h2)
      · have hmem' : b ∈ rest := by
          rcases List.mem_cons.1 hmem with h2 | h2
          · subst h2; exact absurd h1 (lt_irrefl _)
          · exact h2
        exact updFold_overtake k b hb rest it h1 hmem'
          (fun x hx hxk => hdom x (List.mem_cons_of_mem _ hx) hxk)
    · have hmem' : b ∈ rest := by
        rcases List.mem_cons.1 hmem with h1 | h1
        · exact absurd (h1 ▸ hb) hk
        · exact h1
      have hstep : updKey k none it = none := by unfold updKey; simp [hk]
      simp only [List.foldl_cons, hstep]
      exact ih hmem' (fun x hx hxk => hdom x (List.mem_cons_of_mem _ hx) hxk)

/-- Anything `mergeArray` keeps wins at the item level: if `b` has key `k`
and strictly dominates every other key-`k` item of the combined input, `b`
is the entry the merge keeps for `k`. -/
theorem mergeArray_lookup_wins (a1 a2 : List Item) (b : Item) (k : String)
    (hb : keyOf b = some k) (hmem : b ∈ a1 ++ a2)
    (hdom : ∀ x ∈ a1 ++ a2, keyOf x = some k →
      x = b ∨ timeOf x.timestamp < timeOf b.timestamp) :
    lookupAssoc ((a1 ++ a2).foldl mergeStep []) k = some b := by
  rw [lookupAssoc_mergeFold]
  exact updFold_wins k b hb _ hmem hdom

theorem mem_mergeArray_of_lookup (a1 a2 : List Item) (b : Item) (k : String)
    (h : lookupAssoc ((a1 ++ a2).foldl mergeStep []) k = some b) :
    b ∈ mergeArray a1 a2 :=
  mem_values_of_lookupAssoc _ _ _ h

/-- On a timestamp tie the first-inserted occurrence survives: if every
key-`k` item of the first array is `a` (with `a` present) and no key-`k`
item of the second array has a strictly larger timestamp, the kept entry
is `a`. -/
theorem mergeArray_lookup_first (a1 a2 : List Item) (a : Item) (k : String)
    (ha : keyOf a = some k) (hmem : a ∈ a1)
    (hu1 : ∀ x ∈ a1, keyOf x = some k → x = a)
    (hu2 : ∀ x ∈ a2, keyOf x = some k →
      timeOf x.timestamp ≤ timeOf a.timestamp) :
    lookupAssoc ((a1 ++ a2).foldl mergeStep []) k = some a := by
  rw [lookupAssoc_mergeFold, List.foldl_append]
  have h0 : lookupAssoc ([] : List (String × Item)) k = none := rfl
  rw [h0]
  have h1 : a1.foldl (updKey k) none = some a :=
    updFold_wins k a ha a1 hmem (fun x hx hxk => Or.inl (hu1 x hx hxk))
  rw [h1]
  exact updFold_keep k a a2 hu2

/-! ### Key discipline of the merge's association lists -/

theorem entriesKeyOk_setAssoc (l : List (String × Item)) (k : String) (v : Item)
    (hv : keyOf v = some k) (h : entriesKeyOk l) :
    entriesKeyOk (setAssoc l k v) := by
  induction l with
  | nil => intro e he; simp [setAssoc] at he; simp [he, hv]
  | cons e0 rest ih =>
    intro e he
    by_cases h0 : e0.1 = k
    · simp only [setAssoc, if_pos h0] at he
      rcases List.mem_cons.1 he with h1 | h1
      · simp [h1, hv]
      · exact h e (List.mem_cons_of_mem _ h1)
    · simp only [setAssoc, if_neg h0] at he
      rcases List.mem_cons.1 he with h1 | h1
      · exact h e (h1 ▸ List.mem_cons_self _ _)
      · exact ih (fun x hx => h x (List.mem_cons_of_mem _ hx)) e h1

theorem entriesKeyOk_mergeStep (acc : List (String × Item)) (it : Item)
    (h : entriesKeyOk acc) : entriesKeyOk (mergeStep acc it) := by
  cases hko : keyOf it with
  | none => simpa [mergeStep, hko] using h
  | some k =>
    cases hl : lookupAssoc acc k with
    | none =>
      simpa [mergeStep, hko, hl] using entriesKeyOk_setAssoc acc k it hko h
    | some ex =>
      by_cases ht : timeOf it.timestamp > timeOf ex.timestamp
      · simpa [mergeStep, hko, hl, ht] using entriesKeyOk_setAssoc acc k it hko h
      · simpa [mergeStep, hko, hl, ht] using h

theorem entriesKeyOk_mergeFold (L : List Item) (acc : List (String × Item))
    (h : entriesKeyOk acc) : entriesKeyOk (L.foldl mergeStep acc) := by
  induction L generalizing acc with
  | nil => exact h
  | cons it rest ih => exact ih _ (entriesKeyOk_mergeStep acc it h)

theorem hasKey_iff_mem_keys {α : Type} (l : List (String × α)) (k : String) :
    hasKey l k = true ↔ k ∈ l.map (fun e => e.1) := by
  induction l with
  | nil => simp [hasKey]
  | cons e rest ih =>
    simp only [hasKey, Bool.or_eq_true, decide_eq_true_eq, List.map_cons,
      List.mem_cons, ih]
    constructor
    · rintro (h | h)
      · exact Or.inl h.symm
      · exact Or.inr h
    · rintro (h | h)
      · exact Or.inl h.symm
      · exact Or.inr h

theorem keys_setAssoc_of_hasKey {α : Type} (l : List (String × α)) (k : String)
    (v : α) (h : hasKey l k = true) :
    (setAssoc l k v).map (fun e => e.1) = l.map (fun e => e.1) := by
  induction l with
  | nil => simp [hasKey] at h
  | cons e rest ih =>
    by_cases h0 : e.1 = k
    · simp [setAssoc, h0]
    · simp only [hasKey, Bool.or_eq_true, decide_eq_true_eq] at h
      rcases h with h | h
      · exact absurd h h0
      · simp [setAssoc, h0, ih h]

theorem keysNodup_setAssoc {α : Type} (l : List (String × α)) (k : String)
    (v : α) (h : (l.map (fun e => e.1)).Nodup) :
    ((setAssoc l k v).map (fun e => e.1)).Nodup := by
  cases hh : hasKey l k with
  | true => rw [keys_setAssoc_of_hasKey l k v hh]; exact h
  | false =>
    rw [setAssoc_of_not_hasKey l k v hh]
    have hk : k ∉ l.map (fun e => e.1) := by
      intro hmem
      rw [← hasKey_iff_mem_keys] at hmem
      simp [hmem] at hh
    simp [List.nodup_append, h, hk]

theorem keysNodup_mergeStep (acc : List (String × Item)) (it : Item)
    (h : (acc.map (fun e => e.1)).Nodup) :
    ((mergeStep acc it).map (fun e => e.1)).Nodup := by
  cases hko : keyOf it with
  | none => simpa [mergeStep, hko] using h
  | some k =>
    cases hl : lookupAssoc acc k with
    | none => simpa [mergeStep, hko, hl] using keysNodup_setAssoc acc k it h
    | some ex =>
      by_cases ht : timeOf it.timestamp > timeOf ex.timestamp
      · simpa [mergeStep, hko, hl, ht] using keysNodup_setAssoc acc k it h
      · simpa [mergeStep, hko, hl, ht] using h

theorem keysNodup_mergeFold (L : List Item) (acc : List (String × Item))
    (h : (acc.map (fun e => e.1)).Nodup) :
    (((L.foldl mergeStep acc)).map (fun e => e.1)).Nodup := by
  induction L generalizing acc with
  | nil => exact h
  | cons it rest ih => exact ih _ (keysNodup_mergeStep acc it h)

/-- In a key-disciplined, key-unique map, any stored value with key `k` is
the value `lookupAssoc` returns for `k`. -/
theorem lookupAssoc_of_mem_values {α : Type} (l : List (String × α))
    (keyF : α → Option String) (hok : ∀ e ∈ l, keyF e.2 = some e.1)
    (hnd : (l.map (fun e => e.1)).Nodup) (c : α) (k : String)
    (hc : c ∈ l.map (fun e => e.2)) (hck : keyF c = some k) :
    lookupAssoc l k = some c := by
  induction l with
  | nil => simp at hc
  | cons e rest ih =>
    simp only [List.map_cons, List.nodup_cons] at hnd
    rcases List.mem_cons.1 hc with h1 | h1
    · have h1' : c = e.2 := h1
      have he : keyF e.2 = some e.1 := hok e (List.mem_cons_self _ _)
      have hek : e.1 = k := by
        rw [← h1'] at he
        exact Option.some.inj (he.symm.trans hck)
      simp [lookupAssoc, hek, h1']
    · have hrest : lookupAssoc rest k = some c :=
        ih (fun x hx => hok x (List.mem_cons_of_mem _ hx)) hnd.2 h1
      have hne : e.1 ≠ k := by
        intro hcontra
        have : hasKey rest k = true := hasKey_of_lookupAssoc rest k c hrest
        rw [hasKey_iff_mem_keys] at this
        exact hnd.1 (hcontra ▸ this)
      simp [lookupAssoc, hne, hrest]

/-! ### The project-level folds of `mergeDatasets` -/

theorem lookupAssoc_setFold_of_ne (ps : List Project)
    (acc : List (String × Project)) (k : String)
    (h : ∀ p ∈ ps, p.id ≠ k) :
    lookupAssoc (ps.foldl (fun a p => setAssoc a p.id p) acc) k =
      lookupAssoc acc k := by
  induction ps generalizing acc with
  | nil => rfl
  | cons p rest ih =>
    simp only [List.foldl_cons]
    rw [ih _ (fun q hq => h q (List.mem_cons_of_mem _ hq)),
      lookupAssoc_setAssoc_ne _ _ _ _ (Ne.symm (h p (List.mem_cons_self _ _)))]

theorem lookupAssoc_projFold_of_ne (ps : List Project)
    (acc : List (String × Project)) (k : String)
    (h : ∀ p ∈ ps, p.id ≠ k) :
    lookupAssoc (ps.foldl projStep acc) k = lookupAssoc acc k := by
  induction ps generalizing acc with
  | nil => rfl
  | cons p rest ih =>
    simp only [List.foldl_cons]
    rw [ih _ (fun q hq => h q (List.mem_cons_of_mem _ hq))]
    have hne := Ne.symm (h p (List.mem_cons_self _ _))
    unfold projStep
    cases lookupAssoc acc p.id with
    | none => exact lookupAssoc_setAssoc_ne _ _ _ _ hne
    | some lp => exact lookupAssoc_setAssoc_ne _ _ _ _ hne

theorem nodup_ids_split (s t : List Project) (lp : Project)
    (hnd : ((s ++ lp :: t).map (fun p => p.id)).Nodup) :
    (∀ p ∈ s, p.id ≠ lp.id) ∧ (∀ p ∈ t, p.id ≠ lp.id) := by
  rw [List.map_append, List.map_cons, List.nodup_append] at hnd
  obtain ⟨h1, h2, h3⟩ := hnd
  rw [List.nodup_cons] at h2
  constructor
  · intro p hp hcontra
    exact (h3 (List.mem_map.2 ⟨p, hp, rfl⟩))
      (by rw [hcontra]; exact List.mem_cons_self _ _)
  · intro p hp hcontra
    exact h2.1 (hcontra ▸ List.mem_map.2 ⟨p, hp, rfl⟩)

theorem lookupAssoc_setFold_mem (ps : List Project)
    (acc : List (String × Project)) (k : String) (lp : Project)
    (hmem : lp ∈ ps) (hid : lp.id = k)
    (hnd : (ps.map (fun p => p.id)).Nodup) :
    lookupAssoc (ps.foldl (fun a p => setAssoc a p.id p) acc) k = some lp := by
  obtain ⟨s, t, rfl⟩ := List.append_of_mem hmem
  obtain ⟨_, ht⟩ := nodup_ids_split s t lp hnd
  rw [List.foldl_append, List.foldl_cons,
    lookupAssoc_setFold_of_ne t _ k (fun p hp => hid ▸ ht p hp), hid,
    lookupAssoc_setAssoc_self]

theorem lookupAssoc_projFold_mem (ps : List Project)
    (acc : List (String × Project)) (k : String) (rp : Project)
    (hmem : rp ∈ ps) (hid : rp.id = k)
    (hnd : (ps.map (fun p => p.id)).Nodup) :
    lookupAssoc (ps.foldl projStep acc) k =
      some (match lookupAssoc acc k with
            | some lp => mergedProject lp rp
            | none => rp) := by
  subst hid
  obtain ⟨s, t, rfl⟩ := List.append_of_mem hmem
  obtain ⟨hs, ht⟩ := nodup_ids_split s t rp hnd
  rw [List.foldl_append, List.foldl_cons,
    lookupAssoc_projFold_of_ne t _ rp.id ht]
  have hacc : lookupAssoc (List.foldl projStep acc s) rp.id =
      lookupAssoc acc rp.id :=
    lookupAssoc_projFold_of_ne s acc rp.id hs
  cases hl : lookupAssoc acc rp.id with
  | none =>
    rw [hl] at hacc
    simp only [projStep, hacc]
    exact lookupAssoc_setAssoc_self _ _ _
  | some lp =>
    rw [hl] at hacc
    simp only [projStep, hacc]
    exact lookupAssoc_setAssoc_self _ _ _

/-- When a project id occurs on both sides (uniquely on each), the merged
document contains the merged record of those two projects. -/
theorem mergedProject_mem (l r : MasterDoc) (fl fr : String) (n1 n2 n3 : Nat)
    (pid : String) (lp rp : Project)
    (hnl : (l.projects.map (fun p => p.id)).Nodup)
    (hnr : (r.projects.map (fun p => p.id)).Nodup)
    (hlp : lp ∈ l.projects) (hlid : lp.id = pid)
    (hrp : rp ∈ r.projects) (hrid : rp.id = pid) :
    mergedProject lp rp ∈
      (mergeDatasets fl fr n1 n2 n3 (.proj l) (.proj r)).projects := by
  have hm0 : lookupAssoc
      (l.projects.foldl (fun a p => setAssoc a p.id p) []) pid = some lp :=
    lookupAssoc_setFold_mem _ _ _ _ hlp hlid hnl
  have hm1 : lookupAssoc
      (r.projects.foldl projStep
        (l.projects.foldl (fun a p => setAssoc a p.id p) [])) pid =
      some (mergedProject lp rp) := by
    rw [lookupAssoc_projFold_mem _ _ _ rp hrp hrid hnr, hm0]
  simp only [mergeDatasets, normaliseToProjects]
  exact mem_values_of_lookupAssoc _ _ _ hm1

/-- The unique key-`k` element among `mergeArray`'s output is the entry
the fold kept at `k`. -/
theorem mergeArray_unique (a1 a2 : List Item) (c a : Item) (k : String)
    (hlk : lookupAssoc ((a1 ++ a2).foldl mergeStep []) k = some a)
    (hc : c ∈ mergeArray a1 a2) (hck : keyOf c = some k) : c = a := by
  have hko : entriesKeyOk ([] : List (String × Item)) :=
    fun e he => absurd he (List.not_mem_nil e)
  have hnd : ((([] : List (String × Item))).map (fun e => e.1)).Nodup := by simp
  have h1 : lookupAssoc ((a1 ++ a2).foldl mergeStep []) k = some c :=
    lookupAssoc_of_mem_values _ keyOf
      (entriesKeyOk_mergeFold _ _ hko) (keysNodup_mergeFold _ _ hnd) c k hc hck
  exact Option.some.inj (h1.symm.trans hlk)

/-! ### Claims C8 and C10: entity-level merge resolution -/

/-- Claim C8: in the dataset merge, whenever the local side holds an
entity with key `x` and the remote side holds an entity with the same key
and a strictly larger timestamp, the merged document contains the remote
version.  Stated for any of the four entity arrays; the timestamp
hypotheses say the remote entity strictly dominates every same-key local
entity (in particular the claim's single local entity with `T1 < T2`) and
is the unique same-key entity of its own array, as the data model's
id-uniqueness invariant guarantees. -/
theorem c8_merge_remote_newer_wins
    (F : Project → List Item)
    (hF : F = Project.spots ∨ F = Project.routes ∨ F = Project.sites ∨
      F = Project.external_files)
    (l r : MasterDoc) (fl fr : String) (n1 n2 n3 : Nat) (pid k : String)
    (lp rp : Project) (b : Item)
    (hnl : (l.projects.map (fun p => p.id)).Nodup)
    (hnr : (r.projects.map (fun p => p.id)).Nodup)
    (hlp : lp ∈ l.projects) (hlid : lp.id = pid)
    (hrp : rp ∈ r.projects) (hrid : rp.id = pid)
    (hb : b ∈ F rp) (hbk : keyOf b = some k)
    (hloc : ∀ c ∈ F lp, keyOf c = some k →
      timeOf c.timestamp < timeOf b.timestamp)
    (hrem : ∀ c ∈ F rp, keyOf c = some k → c = b) :
    ∃ mp ∈ (mergeDatasets fl fr n1 n2 n3 (.proj l) (.proj r)).projects,
      mp.id = pid ∧ b ∈ F mp := by
  refine ⟨mergedProject lp rp,
    mergedProject_mem l r fl fr n1 n2 n3 pid lp rp hnl hnr hlp hlid hrp hrid,
    hlid, ?_⟩
  have harr : F (mergedProject lp rp) = mergeArray (F lp) (F rp) := by
    rcases hF with h | h | h | h <;> subst h <;> rfl
  rw [harr]
  apply mem_mergeArray_of_lookup _ _ b k
  apply mergeArray_lookup_wins _ _ b k hbk (List.mem_append_right _ hb)
  intro x hx hxk
  rcases List.mem_append.1 hx with h1 | h1
  · exact Or.inr (hloc x h1 hxk)
  · exact Or.inl (hrem x h1 hxk)

/-- Witness for C8 at a concrete input. -/
theorem c8_merge_remote_newer_wins_witness :
    ∃ mp ∈ (mergeDatasets "f1" "f2" 0 0 0 (.proj exDocSpotL)
      (.proj exDocSpotR)).projects,
      mp.id = "p1" ∧ exSpotRemote ∈ mp.spots := by
  exact c8_merge_remote_newer_wins Project.spots (Or.inl rfl) exDocSpotL
    exDocSpotR "f1" "f2" 0 0 0 "p1" "x" exProjSpotL exProjSpotR exSpotRemote
    (by decide) (by decide) (by decide) (by decide) (by decide) (by decide)
    (by decide) (by decide) (by decide) (by decide)

/-- Claim C10: in the dataset merge, when local and remote both hold an
entry with the same key and equal timestamps, the merged document keeps
the local entry — an entry replaces an already-kept one only on a
strictly larger timestamp, so on a tie the first-inserted (local) version
wins and is the only key-`k` entry of the merged array. -/
theorem c10_merge_tie_local_wins
    (F : Project → List Item)
    (hF : F = Project.spots ∨ F = Project.routes ∨ F = Project.sites ∨
      F = Project.external_files)
    (l r : MasterDoc) (fl fr : String) (n1 n2 n3 : Nat) (pid k : String)
    (lp rp : Project) (a b : Item)
    (hnl : (l.projects.map (fun p => p.id)).Nodup)
    (hnr : (r.projects.map (fun p => p.id)).Nodup)
    (hlp : lp ∈ l.projects) (hlid : lp.id = pid)
    (hrp : rp ∈ r.projects) (hrid : rp.id = pid)
    (ha : a ∈ F lp) (hak : keyOf a = some k)
    (hb : b ∈ F rp) (hbk : keyOf b = some k)
    (htie : timeOf b.timestamp = timeOf a.timestamp)
    (hu1 : ∀ c ∈ F lp, keyOf c = some k → c = a)
    (hu2 : ∀ c ∈ F rp, keyOf c = some k → c = b) :
    ∃ mp ∈ (mergeDatasets fl fr n1 n2 n3 (.proj l) (.proj r)).projects,
      mp.id = pid ∧ a ∈ F mp ∧
        ∀ c ∈ F mp, keyOf c = some k → c = a := by
  refine ⟨mergedProject lp rp,
    mergedProject_mem l r fl fr n1 n2 n3 pid lp rp hnl hnr hlp hlid hrp hrid,
    hlid, ?_, ?_⟩
  all_goals
    have harr : F (mergedProject lp rp) = mergeArray (F lp) (F rp) := by
      rcases hF with h | h | h | h <;> subst h <;> rfl
  all_goals
    have hlk : lookupAssoc ((F lp ++ F rp).foldl mergeStep []) k = some a := by
      apply mergeArray_lookup_first _ _ a k hak ha hu1
      intro x hx hxk
      rw [hu2 x hx hxk, htie]
  · rw [harr]
    exact mem_mergeArray_of_lookup _ _ a k hlk
  · rw [harr]
    intro c hc hck
    exact mergeArray_unique (F lp) (F rp) c a k hlk hc hck

/-- Witness for C10 at a concrete input. -/
theorem c10_merge_tie_local_wins_witness :
    ∃ mp ∈ (mergeDatasets "f1" "f2" 0 0 0 (.proj exDocSiteL)
      (.proj exDocSiteR)).projects,
      mp.id = "p1" ∧ exSiteLocal ∈ mp.sites ∧
        ∀ c ∈ mp.sites, keyOf c = some "x" → c = exSiteLocal := by
  exact c10_merge_tie_local_wins Project.sites (Or.inr (Or.inr (Or.inl rfl)))
    exDocSiteL exDocSiteR "f1" "f2" 0 0 0 "p1" "x" exProjSiteL exProjSiteR
    exSiteLocal exSiteRemote (by decide) (by decide) (by decide) (by decide)
    (by decide) (by decide) (by decide) (by decide) (by decide) (by decide)
    (by decide) (by decide) (by decide)

/-! ### Structure of the folds on well-keyed input (for C9) -/

theorem hasKey_append {α : Type} (l1 l2 : List (String × α)) (k : String) :
    hasKey (l1 ++ l2) k = (hasKey l1 k || hasKey l2 k) := by
  induction l1 with
  | nil => simp [hasKey]
  | cons e rest ih => simp [hasKey, ih, Bool.or_assoc]

theorem mergeFold_fresh (L : List Item) (acc : List (String × Item))
    (hkeys : ∀ it ∈ L, (keyOf it).isSome = true)
    (hnd : (L.map keyOf).Nodup)
    (hdisj : ∀ it ∈ L, ∀ k, keyOf it = some k → hasKey acc k = false) :
    L.foldl mergeStep acc =
      acc ++ L.map (fun it => ((keyOf it).getD "", it)) := by
  induction L generalizing acc with
  | nil => simp
  | cons it rest ih =>
    rw [List.map_cons, List.nodup_cons] at hnd
    obtain ⟨k, hk⟩ :=
      Option.isSome_iff_exists.1 (hkeys it (List.mem_cons_self _ _))
    have hdk : hasKey acc k = false := hdisj it (List.mem_cons_self _ _) k hk
    have hstep : mergeStep acc it = acc ++ [(k, it)] := by
      simp only [mergeStep, hk, lookupAssoc_eq_none_of_not_hasKey acc k hdk]
      exact setAssoc_of_not_hasKey acc k it hdk
    have hknotin : (some k) ∉ rest.map keyOf := hk ▸ hnd.1
    have hdisj' : ∀ x ∈ rest, ∀ k', keyOf x = some k' →
        hasKey (acc ++ [(k, it)]) k' = false := by
      intro x hx k' hk'
      have h1 : hasKey acc k' = false := hdisj x (List.mem_cons_of_mem _ hx) k' hk'
      have h2 : k ≠ k' := by
        intro hcontra
        subst hcontra
        exact hknotin (List.mem_map.2 ⟨x, hx, hk'⟩)
      rw [hasKey_append]
      simp [hasKey, h1, h2]
    rw [List.foldl_cons, hstep,
      ih (acc ++ [(k, it)])
        (fun x hx => hkeys x (List.mem_cons_of_mem _ hx)) hnd.2 hdisj']
    simp [hk, List.append_assoc]

theorem mergeFold_noreplace (L : List Item) (M : List (String × Item))
    (h : ∀ it ∈ L, ∀ k, keyOf it = some k →
      ∃ ex, lookupAssoc M k = some ex ∧
        timeOf it.timestamp ≤ timeOf ex.timestamp) :
    L.foldl mergeStep M = M := by
  induction L with
  | nil => rfl
  | cons it rest ih =>
    have hstep : mergeStep M it = M := by
      cases hk : keyOf it with
      | none => simp [mergeStep, hk]
      | some k =>
        obtain ⟨ex, hex, ht⟩ := h it (List.mem_cons_self _ _) k hk
        simp [mergeStep, hk, hex, Nat.not_lt.2 ht]
    rw [List.foldl_cons, hstep]
    exact ih (fun x hx => h x (List.mem_cons_of_mem _ hx))

theorem setAssoc_eq_self {α : Type} (l : List (String × α)) (k : String)
    (v : α) (h : lookupAssoc l k = some v) : setAssoc l k v = l := by
  induction l with
  | nil => simp [lookupAssoc] at h
  | cons e rest ih =>
    obtain ⟨k0, v0⟩ := e
    by_cases h0 : k0 = k
    · simp only [lookupAssoc, if_pos h0] at h
      obtain rfl := Option.some.inj h
      subst h0
      simp [setAssoc]
    · simp only [lookupAssoc, if_neg h0] at h
      simp [setAssoc, h0, ih h]

theorem values_keyedItems (a : List Item) :
    (a.map (fun x => ((keyOf x).getD "", x))).map (fun e => e.2) = a := by
  induction a with
  | nil => rfl
  | cons x xs ih => simp [ih]

theorem values_keyedProjs (ps : List Project) :
    (ps.map (fun q => (q.id, q))).map (fun e => e.2) = ps := by
  induction ps with
  | nil => rfl
  | cons q qs ih => simp [ih]

theorem lookup_keyedItems (a : List Item)
    (hkeys : ∀ it ∈ a, (keyOf it).isSome = true)
    (hnd : (a.map keyOf).Nodup) (it : Item) (hit : it ∈ a) (k : String)
    (hk : keyOf it = some k) :
    lookupAssoc (a.map (fun x => ((keyOf x).getD "", x))) k = some it := by
  apply lookupAssoc_of_mem_values _ keyOf ?hok ?hnd0 it k ?hmem hk
  case hok =>
    intro e he
    obtain ⟨x, hx, rfl⟩ := List.mem_map.1 he
    obtain ⟨kx, hkx⟩ := Option.isSome_iff_exists.1 (hkeys x hx)
    simp [hkx]
  case hnd0 =>
    have heq : (a.map (fun x => ((keyOf x).getD "", x))).map (fun e => e.1) =
        (a.map keyOf).map (fun o => o.getD "") := by
      simp [List.map_map, Function.comp]
    rw [heq]
    apply List.Nodup.map_on ?_ hnd
    intro x hx y hy hxy
    obtain ⟨ix, hix, rfl⟩ := List.mem_map.1 hx
    obtain ⟨iy, hiy, rfl⟩ := List.mem_map.1 hy
    obtain ⟨kx, hkx⟩ := Option.isSome_iff_exists.1 (hkeys ix hix)
    obtain ⟨ky, hky⟩ := Option.isSome_iff_exists.1 (hkeys iy hiy)
    rw [hkx, hky]
    rw [hkx, hky] at hxy
    simpa using hxy
  case hmem =>
    rw [values_keyedItems]
    exact hit

theorem lookup_keyedProjs (ps : List Project)
    (hnd : (ps.map (fun p => p.id)).Nodup) (p : Project) (hp : p ∈ ps) :
    lookupAssoc (ps.map (fun q => (q.id, q))) p.id = some p := by
  apply lookupAssoc_of_mem_values _ (fun q => some q.id) ?hok ?hnd0 p p.id
    ?hmem rfl
  case hok =>
    intro e he
    obtain ⟨x, hx, rfl⟩ := List.mem_map.1 he
    rfl
  case hnd0 =>
    have heq : (ps.map (fun q => (q.id, q))).map (fun e => e.1) =
        ps.map (fun p => p.id) := by
      simp [List.map_map, Function.comp]
    rw [heq]
    exact hnd
  case hmem =>
    rw [values_keyedProjs]
    exact hp

theorem mergeArray_self (a : List Item) (h : arrOk a) : mergeArray a a = a := by
  obtain ⟨hkeys, hnd⟩ := h
  have hmap : a.foldl mergeStep [] =
      a.map (fun it => ((keyOf it).getD "", it)) := by
    simpa using mergeFold_fresh a [] hkeys hnd (fun it _ k _ => rfl)
  have hself : ∀ it ∈ a, ∀ k, keyOf it = some k →
      ∃ ex, lookupAssoc (a.map (fun x => ((keyOf x).getD "", x))) k = some ex ∧
        timeOf it.timestamp ≤ timeOf ex.timestamp := by
    intro it hit k hk
    exact ⟨it, lookup_keyedItems a hkeys hnd it hit k hk, le_refl _⟩
  unfold mergeArray
  rw [List.foldl_append, hmap, mergeFold_noreplace a _ hself]
  exact values_keyedItems a

theorem mergedProject_self (p : Project) (h1 : arrOk p.spots)
    (h2 : arrOk p.routes) (h3 : arrOk p.sites) (h4 : arrOk p.external_files) :
    mergedProject p p = p := by
  unfold mergedProject
  rw [mergeArray_self _ h1, mergeArray_self _ h2, mergeArray_self _ h3,
    mergeArray_self _ h4]

theorem setFold_fresh {α : Type} (g : Project → α) (ps : List Project)
    (acc : List (String × α))
    (hnd : (ps.map (fun p => p.id)).Nodup)
    (hdisj : ∀ p ∈ ps, hasKey acc p.id = false) :
    ps.foldl (fun a p => setAssoc a p.id (g p)) acc =
      acc ++ ps.map (fun p => (p.id, g p)) := by
  induction ps generalizing acc with
  | nil => simp
  | cons p rest ih =>
    have hdk : hasKey acc p.id = false := hdisj p (List.mem_cons_self _ _)
    have hidnotin : p.id ∉ rest.map (fun q => q.id) :=
      (List.nodup_cons.1 (by simpa using hnd)).1
    have hdisj' : ∀ q ∈ rest, hasKey (acc ++ [(p.id, g p)]) q.id = false := by
      intro q hq
      have h1 : hasKey acc q.id = false := hdisj q (List.mem_cons_of_mem _ hq)
      have h2 : p.id ≠ q.id := by
        intro hcontra
        exact hidnotin (hcontra ▸ List.mem_map.2 ⟨q, hq, rfl⟩)
      rw [hasKey_append]
      simp [hasKey, h1, h2]
    rw [List.foldl_cons, setAssoc_of_not_hasKey acc p.id (g p) hdk,
      ih (acc ++ [(p.id, g p)])
        (List.nodup_cons.1 (by simpa using hnd)).2 hdisj']
    simp [List.append_assoc]

theorem projFold_noreplace (ps : List Project) (M : List (String × Project))
    (h : ∀ rp ∈ ps, lookupAssoc M rp.id = some rp ∧ mergedProject rp rp = rp) :
    ps.foldl projStep M = M := by
  induction ps with
  | nil => rfl
  | cons rp rest ih =>
    obtain ⟨hl, hm⟩ := h rp (List.mem_cons_self _ _)
    have hstep : projStep M rp = M := by
      simp only [projStep, hl, hm]
      exact setAssoc_eq_self M rp.id rp hl
    rw [List.foldl_cons, hstep]
    exact ih (fun x hx => h x (List.mem_cons_of_mem _ hx))

theorem projFold_fresh (ps : List Project) (acc : List (String × Project))
    (hnd : (ps.map (fun p => p.id)).Nodup)
    (hdisj : ∀ p ∈ ps, hasKey acc p.id = false) :
    ps.foldl projStep acc = acc ++ ps.map (fun p => (p.id, p)) := by
  induction ps generalizing acc with
  | nil => simp
  | cons rp rest ih =>
    have hdk : hasKey acc rp.id = false := hdisj rp (List.mem_cons_self _ _)
    have hstep : projStep acc rp = acc ++ [(rp.id, rp)] := by
      simp only [projStep, lookupAssoc_eq_none_of_not_hasKey acc rp.id hdk]
      exact setAssoc_of_not_hasKey acc rp.id rp hdk
    have hidnotin : rp.id ∉ rest.map (fun q => q.id) :=
      (List.nodup_cons.1 (by simpa using hnd)).1
    have hdisj' : ∀ q ∈ rest, hasKey (acc ++ [(rp.id, rp)]) q.id = false := by
      intro q hq
      have h1 : hasKey acc q.id = false := hdisj q (List.mem_cons_of_mem _ hq)
      have h2 : rp.id ≠ q.id := by
        intro hcontra
        exact hidnotin (hcontra ▸ List.mem_map.2 ⟨q, hq, rfl⟩)
      rw [hasKey_append]
      simp [hasKey, h1, h2]
    rw [List.foldl_cons, hstep,
      ih (acc ++ [(rp.id, rp)])
        (List.nodup_cons.1 (by simpa using hnd)).2 hdisj']
    simp [List.append_assoc]

/-! ### Signature congruences -/

theorem sortStrings_eq_of_perm (l1 l2 : List String) (h : l1.Perm l2) :
    sortStrings l1 = sortStrings l2 :=
  List.eq_of_perm_of_sorted
    (((List.perm_insertionSort _ l1).trans h).trans
      (List.perm_insertionSort _ l2).symm)
    (List.sorted_insertionSort _ l1) (List.sorted_insertionSort _ l2)

theorem sig_eq_of_projects_eq (d1 d2 : MasterDoc)
    (h : d1.projects = d2.projects) :
    generateDataSignature (some (.proj d1)) =
      generateDataSignature (some (.proj d2)) := by
  simp only [generateDataSignature, h]

theorem sig_eq_of_projects_perm (d1 d2 : MasterDoc)
    (h : d1.projects.Perm d2.projects) :
    generateDataSignature (some (.proj d1)) =
      generateDataSignature (some (.proj d2)) := by
  simp only [generateDataSignature]
  rw [sortStrings_eq_of_perm _ _ (h.map sigOfProject)]

theorem hasKey_keyedProjs_false (ps : List Project) (k : String)
    (h : ∀ p ∈ ps, p.id ≠ k) :
    hasKey (ps.map (fun q => (q.id, q))) k = false := by
  induction ps with
  | nil => rfl
  | cons q qs ih =>
    simp [hasKey, h q (List.mem_cons_self _ _),
      ih (fun p hp => h p (List.mem_cons_of_mem _ hp))]

/-- The merged project list on disjoint inputs is the concatenation of the
two sides' project lists. -/
theorem merge_projects_disjoint (A B : MasterDoc) (fl fr : String)
    (n1 n2 n3 : Nat)
    (hndA : (A.projects.map (fun p => p.id)).Nodup)
    (hndB : (B.projects.map (fun p => p.id)).Nodup)
    (hdisj : ∀ pb ∈ B.projects, ∀ pa ∈ A.projects, pa.id ≠ pb.id) :
    (mergeDatasets fl fr n1 n2 n3 (.proj A) (.proj B)).projects =
      A.projects ++ B.projects := by
  simp only [mergeDatasets, normaliseToProjects]
  have hm0 : A.projects.foldl (fun acc p => setAssoc acc p.id p) [] =
      A.projects.map (fun p => (p.id, p)) := by
    simpa using setFold_fresh (fun p => p) A.projects [] hndA (fun p _ => rfl)
  have hm1 : B.projects.foldl projStep (A.projects.map (fun p => (p.id, p))) =
      A.projects.map (fun p => (p.id, p)) ++
        B.projects.map (fun p => (p.id, p)) := by
    apply projFold_fresh B.projects _ hndB
    intro pb hpb
    exact hasKey_keyedProjs_false A.projects pb.id
      (fun pa hpa => hdisj pb hpb pa hpa)
  rw [hm0, hm1, ← List.map_append]
  exact values_keyedProjs (A.projects ++ B.projects)

/-! ### Claim C9: merge is idempotent and commutative up to signature -/

/-- Claim C9: for master documents satisfying the data model's uniqueness
invariants, `merge(A, A)` has the same content signature as `A`, and for
documents with disjoint project-id sets `merge(A, B)` and `merge(B, A)`
have equal content signatures. -/
theorem c9_merge_idempotent_commutative
    (A B : MasterDoc) (fl fr : String) (n1 n2 n3 m1 m2 m3 : Nat)
    (hA : docOk A)
    (hB : (B.projects.map (fun p => p.id)).Nodup)
    (hdisj : ∀ pa ∈ A.projects, ∀ pb ∈ B.projects, pa.id ≠ pb.id) :
    (generateDataSignature
        (some (.proj (mergeDatasets fl fr n1 n2 n3 (.proj A) (.proj A)))) =
      generateDataSignature (some (.proj A))) ∧
    (generateDataSignature
        (some (.proj (mergeDatasets fl fr n1 n2 n3 (.proj A) (.proj B)))) =
      generateDataSignature
        (some (.proj (mergeDatasets fl fr m1 m2 m3 (.proj B) (.proj A))))) := by
  obtain ⟨hndA, harrs⟩ := hA
  constructor
  · apply sig_eq_of_projects_eq
    have hm0 : A.projects.foldl (fun acc p => setAssoc acc p.id p) [] =
        A.projects.map (fun p => (p.id, p)) := by
      simpa using setFold_fresh (fun p => p) A.projects [] hndA (fun p _ => rfl)
    have hm1 : A.projects.foldl projStep
        (A.projects.map (fun p => (p.id, p))) =
        A.projects.map (fun p => (p.id, p)) := by
      apply projFold_noreplace
      intro rp hrp
      obtain ⟨h1, h2, h3, h4⟩ := harrs rp hrp
      exact ⟨lookup_keyedProjs A.projects hndA rp hrp,
        mergedProject_self rp h1 h2 h3 h4⟩
    show (mergeDatasets fl fr n1 n2 n3 (.proj A) (.proj A)).projects =
      A.projects
    simp only [mergeDatasets, normaliseToProjects]
    rw [hm0, hm1]
    exact values_keyedProjs A.projects
  · apply sig_eq_of_projects_perm
    have hAB := merge_projects_disjoint A B fl fr n1 n2 n3 hndA hB
      (fun pb hpb pa hpa => hdisj pa hpa pb hpb)
    have hBA := merge_projects_disjoint B A fl fr m1 m2 m3 hB hndA
      (fun pa hpa pb hpb => (hdisj pa hpa pb hpb).symm)
    rw [hAB, hBA]
    exact List.perm_append_comm

/-- Witness for C9 at concrete inputs. -/
theorem c9_merge_idempotent_commutative_witness :
    (generateDataSignature
        (some (.proj (mergeDatasets "f1" "f2" 0 0 0 (.proj exDocSpotL)
          (.proj exDocSpotL)))) =
      generateDataSignature (some (.proj exDocSpotL))) ∧
    (generateDataSignature
        (some (.proj (mergeDatasets "f1" "f2" 0 0 0 (.proj exDocSpotL)
          (.proj exDocQ)))) =
      generateDataSignature
        (some (.proj (mergeDatasets "f1" "f2" 1 1 1 (.proj exDocQ)
          (.proj exDocSpotL))))) :=
  c9_merge_idempotent_commutative exDocSpotL exDocQ "f1" "f2" 0 0 0 1 1 1
    (by decide) (by decide) (by decide)

/-! ### Claim C1: the derived folder name is not rename-stable -/

/-- Claim C1: the spec (and the source's own comments) say the derived
folder name is computed once from the name at creation time and that
renaming never changes it.  The code recomputes it from the current
`name` on every call, so a successful `renameProject` changes the folder
name: evaluated at a concrete project, the folder is `"Old_Name_abcdef"`
before the rename and `"New_Name_abcdef"` after it. -/
theorem c1_rename_changes_folder_name :
    getProjectFolderName (some exOldProject) = "Old_Name_abcdef" ∧
    renameProjectFn exOldDoc "abcdef-1234" (some "New Name") =
      .ok { exOldDoc with projects := [exRenamedProject] } ∧
    getProjectFolderName (some exRenamedProject) = "New_Name_abcdef" ∧
    getProjectFolderName (some exRenamedProject) ≠
      getProjectFolderName (some exOldProject) :=
  ⟨by decide, by decide, by decide, by decide⟩

/-! ### Claim C7: deleting the last project fails and changes nothing -/

/-- Claim C7: on a document whose projects array has exactly one element,
`deleteProject` (with any project id) throws the validation error before
touching any state, so the returned state equals the input state. -/
theorem c7_delete_last_project_fails (d : MasterDoc) (pid : String)
    (h : d.projects.length = 1) :
    deleteProjectFn d pid =
      (d, some "Cannot delete the last remaining project.") := by
  simp [deleteProjectFn, h]

/-- Witness for C7 at a concrete input. -/
theorem c7_delete_last_project_fails_witness :
    deleteProjectFn exDocSpotL "p1" =
      (exDocSpotL, some "Cannot delete the last remaining project.") :=
  c7_delete_last_project_fails exDocSpotL "p1" (by decide)

/-! ### Claim C6: batch isolation, progress events and the busy guard -/

/-- Claim C6: a five-item batch in which exactly the third item fails does
not abort: it returns `success = 4, failed = 1`, emits one in-order
progress event after each of the five items (20%..100%, with the running
failure count), and leaves the busy flag clear; and any invocation made
while a batch is in flight (the module flag set) fails immediately with
the busy error instead of queuing or interleaving. -/
theorem c6_batch_failure_isolation_and_busy_guard :
    (∀ it1 it2 it3 it4 it5 : BatchItem, ∀ io : Nat → Bool,
      io 0 = true → io 1 = true → io 2 = false → io 3 = true → io 4 = true →
      syncBatch false [it1, it2, it3, it4, it5] "push" io =
        .ok { result := { success := 4, failed := 1 }
              progress := [⟨20, it1.name, 0⟩, ⟨40, it2.name, 0⟩,
                ⟨60, it3.name, 1⟩, ⟨80, it4.name, 1⟩, ⟨100, it5.name, 1⟩]
              syncingAfter := false }) ∧
    (∀ (items : List BatchItem) (direction : String) (io : Nat → Bool),
      syncBatch true items direction io =
        .error "A sync operation is already running in the background.") := by
  constructor
  · intro it1 it2 it3 it4 it5 io h0 h1 h2 h3 h4
    simp only [syncBatch, List.enum, List.enumFrom, List.length_cons,
      List.length_nil, List.foldl_cons, List.foldl_nil, itemSucceeds,
      if_pos, h0, h1, h2, h3, h4, jsRound100]
    norm_num
  · intro items direction io
    rfl

/-- Witness for C6 at a concrete input. -/
theorem c6_batch_failure_isolation_and_busy_guard_witness :
    (syncBatch false [{ name := "a" }, { name := "b" }, { name := "c" },
        { name := "d" }, { name := "e" }] "push" (fun i => !(i == 2)) =
      .ok { result := { success := 4, failed := 1 }
            progress := [⟨20, "a", 0⟩, ⟨40, "b", 0⟩, ⟨60, "c", 1⟩,
              ⟨80, "d", 1⟩, ⟨100, "e", 1⟩]
            syncingAfter := false }) ∧
    (syncBatch true [{ name := "a" }] "push" (fun _ => true) =
      .error "A sync operation is already running in the background.") :=
  ⟨c6_batch_failure_isolation_and_busy_guard.1 { name := "a" } { name := "b" }
      { name := "c" } { name := "d" } { name := "e" } (fun i => !(i == 2))
      rfl rfl rfl rfl rfl,
    c6_batch_failure_isolation_and_busy_guard.2 [{ name := "a" }] "push"
      (fun _ => true)⟩

/-! ### Counterexamples for the corrected claims -/

/-- Counterexample to claim C2 as stated: the `pull` resolution adopts the
remote document without repairing `currentProjectId`, so pulling a remote
document whose `currentProjectId` names no project leaves the reference
orphaned. -/
theorem c2_pull_no_repair_counterexample :
    ¬ currentOk (resolvePullFn (.proj exBadRemote) "fresh" 0) := by decide

/-- Counterexample to claim C3 as stated: two documents whose projects
carry the same entity ids and timestamps (here: none at all) but
different display names get different signatures, and the conflict event
is raised. -/
theorem c3_signature_depends_on_name_counterexample :
    generateDataSignature (some (.proj exSigA)) ≠
      generateDataSignature (some (.proj exSigB)) ∧
    conflictRaised (some (.proj exSigA)) (some (.proj exSigB)) = true := by
  decide

/-- Counterexample to claim C4 as stated: a project with zero entities
still yields a non-empty report when the remote listing has a file tagged
under the project's folder — the drive-only pass reports it. -/
theorem c4_stray_remote_counterexample :
    generateSyncReport exEmptyDoc (some "p1") [exStray] (fun _ => false) =
      [exStrayRecord] ∧
    generateSyncReport exEmptyDoc (some "p1") [exStray] (fun _ => false) ≠
      [] := by
  constructor
  · decide
  · decide

/-! ### Claim C3 (amended): what the signature is a function of -/

/-- Claim C3 (amended): the content signature is a function of the
projects' ids, names, and per-array entity `"id_timestamp"` token
multisets — not of the literal JSON text, entity order, project order,
`currentProjectId`, metadata, or any other field.  Two documents whose
projects agree, up to order, on `projKeyTuple` receive equal signatures
and raise no conflict event. -/
theorem c3_signature_determined_by_ids_names_tokens (A B : MasterDoc)
    (h : (A.projects.map projKeyTuple).Perm (B.projects.map projKeyTuple)) :
    generateDataSignature (some (.proj A)) =
      generateDataSignature (some (.proj B)) ∧
    conflictRaised (some (.proj A)) (some (.proj B)) = false := by
  have hmm : ∀ (ps : List Project),
      ps.map sigOfProject = (ps.map projKeyTuple).map renderProjKey := by
    intro ps
    rw [List.map_map]
    rfl
  have hsig : generateDataSignature (some (.proj A)) =
      generateDataSignature (some (.proj B)) := by
    simp only [generateDataSignature]
    apply congrArg (String.intercalate "||")
    apply sortStrings_eq_of_perm
    rw [hmm A.projects, hmm B.projects]
    exact h.map renderProjKey
  exact ⟨hsig, by simp [conflictRaised, hsig]⟩

/-- Witness for the amended C3 at concrete inputs: reordered projects with
changed ignored fields give equal signatures and no conflict. -/
theorem c3_signature_determined_witness :
    generateDataSignature (some (.proj exPermA)) =
      generateDataSignature (some (.proj exPermB)) ∧
    conflictRaised (some (.proj exPermA)) (some (.proj exPermB)) = false :=
  c3_signature_determined_by_ids_names_tokens exPermA exPermB (by decide)

/-! ### Claim C4 (amended): report of an entity-free project -/

theorem buildDriveMapFold_skip (driveFiles : List DriveFile) (folder : String)
    (acc : List (String × DriveFile))
    (h : ∀ f ∈ driveFiles, ∀ rp, f.relativePath = some rp →
      strStartsWith rp (folder ++ "/") = false) :
    driveFiles.foldl (fun m f =>
      match f.relativePath with
      | some rp =>
        if strStartsWith rp (folder ++ "/") then setAssoc m rp f else m
      | none => m) acc = acc := by
  induction driveFiles generalizing acc with
  | nil => rfl
  | cons f rest ih =>
    have hstep : (match f.relativePath with
        | some rp =>
          if strStartsWith rp (folder ++ "/") then setAssoc acc rp f else acc
        | none => acc) = acc := by
      cases hrp : f.relativePath with
      | none => rfl
      | some rp => simp [h f (List.mem_cons_self _ _) rp hrp]
    rw [List.foldl_cons, hstep]
    exact ih _ (fun g hg => h g (List.mem_cons_of_mem _ hg))

theorem buildDriveMap_empty (driveFiles : List DriveFile) (folder : String)
    (h : ∀ f ∈ driveFiles, ∀ rp, f.relativePath = some rp →
      strStartsWith rp (folder ++ "/") = false) :
    buildDriveMap driveFiles folder = [] :=
  buildDriveMapFold_skip driveFiles folder [] h

/-- Claim C4 (amended): for a project that references zero entities,
`generateSyncReport` returns the empty list provided no file in the
remote listing is tagged under the project's folder (without that proviso
the drive-only pass emits one record per such file, as the
counterexample shows). -/
theorem c4_empty_project_empty_report (state : MasterDoc) (pid : String)
    (project : Project) (driveFiles : List DriveFile)
    (localExists : String → Bool)
    (hpid : pid ≠ "")
    (hfind : state.projects.find? (fun p => p.id = pid) = some project)
    (hs : project.spots = []) (hsi : project.sites = [])
    (hef : project.external_files = [])
    (hdrive : ∀ f ∈ driveFiles, ∀ rp, f.relativePath = some rp →
      strStartsWith rp (getProjectFolderName (some project) ++ "/") = false) :
    generateSyncReport state (some pid) driveFiles localExists = [] := by
  have hjs : jsOrStr (some pid) state.currentProjectId = some pid := by
    simp [jsOrStr, hpid]
  have hexp : expectedFilesOf project = [] := by
    simp [expectedFilesOf, hs, hsi, hef]
  have hmap : buildDriveMap driveFiles (getProjectFolderName (some project)) =
      [] := buildDriveMap_empty _ _ hdrive
  simp only [generateSyncReport, findByOptId, hjs, hfind, hexp, hmap]
  simp

/-- Witness for the amended C4 at a concrete input. -/
theorem c4_empty_project_empty_report_witness :
    generateSyncReport exEmptyDoc (some "p1") [] (fun _ => true) = [] :=
  c4_empty_project_empty_report exEmptyDoc "p1" exEmptyProj []
    (fun _ => true) (by decide) (by decide) rfl rfl rfl
    (fun f hf => absurd hf (List.not_mem_nil f))

/-! ### Claim C5: the strict two-way sync status -/

theorem lookup_keyedMap {α : Type} (g : Project → α) (ps : List Project)
    (hnd : (ps.map (fun p => p.id)).Nodup) (p : Project) (hp : p ∈ ps) :
    lookupAssoc (ps.map (fun q => (q.id, g q))) p.id = some (g p) := by
  induction ps with
  | nil => cases hp
  | cons q qs ih =>
    rw [List.map_cons, List.nodup_cons] at hnd
    rcases List.mem_cons.1 hp with h1 | h1
    · subst h1
      simp [lookupAssoc]
    · have hne : q.id ≠ p.id := by
        intro hcontra
        exact hnd.1 (hcontra ▸ List.mem_map.2 ⟨p, h1, rfl⟩)
      simp only [List.map_cons, lookupAssoc, if_neg hne]
      exact ih hnd.2 h1

/-- The check `projectSynced` returns true exactly when every expected file is
present on both sides and no remote path under the project's folder is
outside the expected set. -/
theorem projectSynced_iff (p : Project) (dps : List String)
    (le : String → Bool) :
    projectSynced p dps le = true ↔
      ((∀ f ∈ expectedFilesOf p, le f = true ∧ f ∈ dps) ∧
       (∀ dp ∈ dps,
          strStartsWith dp (getProjectFolderName (some p) ++ "/") = true →
          dp ∈ expectedFilesOf p)) := by
  unfold projectSynced
  by_cases hp1 :
      ((expectedFilesOf p).all (fun path => dps.elem path && le path)) = true
  · rw [if_pos hp1]
    have hexp : ∀ f ∈ expectedFilesOf p, le f = true ∧ f ∈ dps := by
      intro f hf
      have hx := List.all_eq_true.1 hp1 f hf
      rw [Bool.and_eq_true] at hx
      exact ⟨hx.2, List.elem_iff.1 hx.1⟩
    constructor
    · intro h2
      refine ⟨hexp, ?_⟩
      intro dp hdp hstart
      have hx := List.all_eq_true.1 h2 dp hdp
      rw [hstart] at hx
      simp only [Bool.not_true, Bool.false_or] at hx
      exact List.elem_iff.1 hx
    · rintro ⟨-, hb⟩
      rw [List.all_eq_true]
      intro dp hdp
      cases hstart : strStartsWith dp (getProjectFolderName (some p) ++ "/") with
      | false => simp
      | true =>
        simp only [Bool.not_true, Bool.false_or]
        exact List.elem_iff.2 (hb dp hdp hstart)
  · rw [if_neg hp1]
    constructor
    · intro h
      cases h
    · rintro ⟨ha, -⟩
      exfalso
      apply hp1
      rw [List.all_eq_true]
      intro f hf
      obtain ⟨h1, h2⟩ := ha f hf
      simp [h1, h2]

/-- Claim C5: `getAllProjectsSyncStatus` maps each project to `true` iff
every expected file exists both locally and remotely and no remote file
whose tagged path lies under the project's folder is missing from the
expected set. -/
theorem c5_sync_status_iff (state : MasterDoc) (driveFiles : List DriveFile)
    (localExists : String → Bool) (p : Project)
    (hnd : (state.projects.map (fun q => q.id)).Nodup)
    (hp : p ∈ state.projects) :
    (lookupAssoc (getAllProjectsSyncStatus state driveFiles localExists)
        p.id = some true) ↔
      ((∀ f ∈ expectedFilesOf p,
          localExists f = true ∧ f ∈ drivePathsOf driveFiles) ∧
       (∀ dp ∈ drivePathsOf driveFiles,
          strStartsWith dp (getProjectFolderName (some p) ++ "/") = true →
          dp ∈ expectedFilesOf p)) := by
  have hfold : getAllProjectsSyncStatus state driveFiles localExists =
      state.projects.map (fun q =>
        (q.id, projectSynced q (drivePathsOf driveFiles) localExists)) := by
    unfold getAllProjectsSyncStatus
    simpa using setFold_fresh
      (fun q => projectSynced q (drivePathsOf driveFiles) localExists)
      state.projects [] hnd (fun q _ => rfl)
  rw [hfold, lookup_keyedMap _ _ hnd p hp]
  rw [Option.some_inj]
  exact projectSynced_iff p (drivePathsOf driveFiles) localExists

/-- Witness for C5 at a concrete input: one expected file, present
locally, absent remotely — the characterisation applies (and its
right-hand side is false there, so the project is reported unsynced). -/
theorem c5_sync_status_iff_witness :
    (lookupAssoc (getAllProjectsSyncStatus exSyncDoc [] (fun _ => true))
        "p1" = some true) ↔
      ((∀ f ∈ expectedFilesOf exSyncProj,
          (fun (_ : String) => true) f = true ∧ f ∈ drivePathsOf []) ∧
       (∀ dp ∈ drivePathsOf [],
          strStartsWith dp (getProjectFolderName (some exSyncProj) ++ "/") =
            true →
          dp ∈ expectedFilesOf exSyncProj)) :=
  c5_sync_status_iff exSyncDoc [] (fun _ => true) exSyncProj (by decide)
    (by decide)

/-! ### Claim C2 (amended): validity of `currentProjectId` -/

/-- Replacing the project at index `i` by one with the same id preserves
the `currentProjectId` invariant. -/
theorem currentOk_set (d : MasterDoc) (i : Nat) (p q : Project)
    (hq : q.id = p.id) (hi : d.projects[i]? = some p) (h : currentOk d) :
    currentOk { d with projects := d.projects.set i q } := by
  intro _
  have hne : d.projects ≠ [] := by
    intro hcontra
    rw [hcontra] at hi
    simp at hi
  have hlt : i < d.projects.length := by
    by_contra hge
    rw [List.getElem?_eq_none (Nat.le_of_not_lt hge)] at hi
    cases hi
  obtain ⟨w, hw, hwid⟩ := h hne
  obtain ⟨j, hj⟩ := List.mem_iff_getElem?.1 hw
  by_cases hij : j = i
  · subst hij
    have hwp : w = p := Option.some.inj (hj.symm.trans hi)
    refine ⟨q, ?_, ?_⟩
    · exact List.mem_iff_getElem?.2 ⟨j, List.getElem?_set_self hlt⟩
    · show d.currentProjectId = some q.id
      rw [hwid, hwp, hq]
  · refine ⟨w, ?_, hwid⟩
    refine List.mem_iff_getElem?.2 ⟨j, ?_⟩
    rw [List.getElem?_set_ne (fun hc => hij hc.symm)]
    exact hj

theorem hasKey_setFold_mono (u : List Project)
    (m : List (String × Project)) (k : String) (hm : hasKey m k = true) :
    hasKey (u.foldl (fun a q => setAssoc a q.id q) m) k = true := by
  induction u generalizing m with
  | nil => exact hm
  | cons q qs ih =>
    rw [List.foldl_cons]
    apply ih
    rw [hasKey_setAssoc]
    simp [hm]

theorem hasKey_setFold_of_mem (ps : List Project)
    (acc : List (String × Project)) (p : Project) (hp : p ∈ ps) :
    hasKey (ps.foldl (fun a q => setAssoc a q.id q) acc) p.id = true := by
  obtain ⟨s, t, rfl⟩ := List.append_of_mem hp
  rw [List.foldl_append, List.foldl_cons]
  apply hasKey_setFold_mono
  rw [hasKey_setAssoc]
  simp

theorem hasKey_projFold_mono (u : List Project)
    (m : List (String × Project)) (k : String) (hm : hasKey m k = true) :
    hasKey (u.foldl projStep m) k = true := by
  induction u generalizing m with
  | nil => exact hm
  | cons q qs ih =>
    rw [List.foldl_cons]
    apply ih
    cases hl : lookupAssoc m q.id with
    | none =>
      simp only [projStep, hl]
      rw [hasKey_setAssoc]
      simp [hm]
    | some lp =>
      simp only [projStep, hl]
      rw [hasKey_setAssoc]
      simp [hm]

theorem projEntriesOk_setAssoc (l : List (String × Project)) (k : String)
    (v : Project) (hv : v.id = k) (h : ∀ e ∈ l, e.2.id = e.1) :
    ∀ e ∈ setAssoc l k v, e.2.id = e.1 := by
  induction l with
  | nil =>
    intro e he
    simp [setAssoc] at he
    simp [he, hv]
  | cons e0 rest ih =>
    intro e he
    by_cases h0 : e0.1 = k
    · simp only [setAssoc, if_pos h0] at he
      rcases List.mem_cons.1 he with h1 | h1
      · simp [h1, hv]
      · exact h e (List.mem_cons_of_mem _ h1)
    · simp only [setAssoc, if_neg h0] at he
      rcases List.mem_cons.1 he with h1 | h1
      · exact h e (h1 ▸ List.mem_cons_self _ _)
      · exact ih (fun x hx => h x (List.mem_cons_of_mem _ hx)) e h1

theorem projEntriesOk_setFold (ps : List Project)
    (acc : List (String × Project)) (h : ∀ e ∈ acc, e.2.id = e.1) :
    ∀ e ∈ ps.foldl (fun a q => setAssoc a q.id q) acc, e.2.id = e.1 := by
  induction ps generalizing acc with
  | nil => exact h
  | cons q qs ih =>
    rw [List.foldl_cons]
    exact ih _ (projEntriesOk_setAssoc acc q.id q rfl h)

theorem projEntriesOk_projFold (ps : List Project)
    (acc : List (String × Project)) (h : ∀ e ∈ acc, e.2.id = e.1) :
    ∀ e ∈ ps.foldl projStep acc, e.2.id = e.1 := by
  induction ps generalizing acc with
  | nil => exact h
  | cons rp qs ih =>
    rw [List.foldl_cons]
    apply ih
    cases hl : lookupAssoc acc rp.id with
    | none =>
      simp only [projStep, hl]
      exact projEntriesOk_setAssoc acc rp.id rp rfl h
    | some lp =>
      simp only [projStep, hl]
      apply projEntriesOk_setAssoc acc rp.id (mergedProject lp rp) ?_ h
      have : lp.id = rp.id := h (rp.id, lp) (mem_of_lookupAssoc acc rp.id lp hl)
      exact this

theorem lookupAssoc_isSome_of_hasKey {α : Type} (l : List (String × α))
    (k : String) (h : hasKey l k = true) : ∃ v, lookupAssoc l k = some v := by
  induction l with
  | nil => simp [hasKey] at h
  | cons e rest ih =>
    by_cases he : e.1 = k
    · exact ⟨e.2, by simp [lookupAssoc, he]⟩
    · simp only [hasKey, Bool.or_eq_true, decide_eq_true_eq] at h
      rcases h with h | h
      · exact absurd h he
      · obtain ⟨v, hv⟩ := ih h
        exact ⟨v, by simp [lookupAssoc, he, hv]⟩

/-- Every project id of the local side survives the dataset merge. -/
theorem mergeDatasets_keeps_local_ids (dl : MasterDoc) (rr : RawDoc)
    (fl fr : String) (n1 n2 n3 : Nat) (w : Project) (hw : w ∈ dl.projects) :
    ∃ q ∈ (mergeDatasets fl fr n1 n2 n3 (.proj dl) rr).projects,
      q.id = w.id := by
  have hk0 : hasKey
      (dl.projects.foldl (fun a q => setAssoc a q.id q) []) w.id =
      true := hasKey_setFold_of_mem dl.projects [] w hw
  have hk1 : hasKey
      ((normaliseToProjects fr n2 rr).projects.foldl projStep
        (dl.projects.foldl (fun a q => setAssoc a q.id q) [])) w.id = true :=
    hasKey_projFold_mono _ _ _ hk0
  obtain ⟨v, hv⟩ := lookupAssoc_isSome_of_hasKey _ _ hk1
  have hok : ∀ e ∈ (normaliseToProjects fr n2 rr).projects.foldl projStep
      (dl.projects.foldl (fun a q => setAssoc a q.id q) []), e.2.id = e.1 :=
    projEntriesOk_projFold _ _
      (projEntriesOk_setFold dl.projects []
        (fun e he => absurd he (List.not_mem_nil e)))
  refine ⟨v, ?_, hok (w.id, v) (mem_of_lookupAssoc _ _ _ hv)⟩
  simp only [mergeDatasets, normaliseToProjects]
  exact mem_values_of_lookupAssoc _ _ _ hv

/-- Claim C2 (amended): at every observable state transition —
load/migration, every `save*` mutation, `createProject`, `switchProject`,
`renameProject`, `deleteProject`, conflict-resolution merge, and the
migration branch of pull — `currentProjectId` references an existing
member of `projects` (repaired to the first project where the code
repairs, given the loaded document's first project has a non-empty id,
the local side of a merge is non-degenerate, and the invariant held
before the mutating transitions).  Conflict-resolution pull of an
already-project-based remote document performs no repair, so after it the
invariant holds only when the pulled document itself satisfies it. -/
theorem c2_current_reference_valid :
    (∀ loaded fresh now, loadGuardOkB loaded = true →
      currentOk (ensureMasterJsonFn loaded fresh now)) ∧
    (∀ d spotData imageBlob audioBlob fresh now d1, currentOk d →
      saveSpotFn d spotData imageBlob audioBlob fresh now = .ok d1 →
      currentOk d1) ∧
    (∀ d siteName fresh now d1, currentOk d →
      saveSiteFn d siteName fresh now = .ok d1 → currentOk d1) ∧
    (∀ d routeData fresh now d1, currentOk d →
      saveRouteFn d routeData fresh now = .ok d1 → currentOk d1) ∧
    (∀ d fileName fileType spotIds fresh now d1, currentOk d →
      saveExternalFileFn d fileName fileType spotIds fresh now = .ok d1 →
      currentOk d1) ∧
    (∀ d name fresh now, currentOk (createProjectFn d name fresh now)) ∧
    (∀ d pid d1, switchProjectFn d pid = .ok d1 → currentOk d1) ∧
    (∀ d pid nm d1, currentOk d → renameProjectFn d pid nm = .ok d1 →
      currentOk d1) ∧
    (∀ d pid, currentOk d → (deleteProjectFn d pid).2 = none →
      currentOk (deleteProjectFn d pid).1) ∧
    (∀ flat fresh now, currentOk (resolvePullFn (.flat flat) fresh now)) ∧
    (∀ dm fresh now, currentOk dm →
      currentOk (resolvePullFn (.proj dm) fresh now)) ∧
    (∀ dl rr fl fr n1 n2 n3, currentOk dl → dl.projects ≠ [] →
      currentOk (mergeDatasets fl fr n1 n2 n3 (.proj dl) rr)) := by
  refine ⟨?_, ?_, ?_, ?_, ?_, ?_, ?_, ?_, ?_, ?_, ?_, ?_⟩
  · -- ensureMasterJson
    intro loaded fresh now hguard
    cases loaded with
    | none =>
      intro _
      exact ⟨_, List.mem_cons_self _ _, rfl⟩
    | some rd =>
      cases rd with
      | flat d =>
        intro _
        exact ⟨_, List.mem_cons_self _ _, rfl⟩
      | proj d =>
        by_cases hany :
            d.projects.any (fun p => d.currentProjectId = some p.id) = true
        · simp only [ensureMasterJsonFn, hany, if_pos]
          intro _
          obtain ⟨p, hp, hpid⟩ := List.any_eq_true.1 hany
          exact ⟨p, hp, of_decide_eq_true hpid⟩
        · simp only [ensureMasterJsonFn, if_neg hany]
          cases hps : d.projects with
          | nil =>
            intro hcontra
            simp [hps] at hcontra
          | cons p rest =>
            intro _
            have hpid : p.id ≠ "" := by
              simp only [loadGuardOkB, hps] at hguard
              simpa using hguard
            refine ⟨p, by simp [hps], ?_⟩
            simp [hps, hpid]
  · -- saveSpot
    intro d spotData imageBlob audioBlob fresh now d1 h hok
    cases hidx : getActiveIdx d with
    | none => simp [saveSpotFn, hidx] at hok
    | some i =>
      cases hgi : d.projects[i]? with
      | none => simp [saveSpotFn, hidx, hgi] at hok
      | some project =>
        simp only [saveSpotFn, hidx, hgi] at hok
        have hd1 := (Except.ok.inj hok)
        rw [← hd1]
        exact currentOk_set d i project _ rfl hgi h
  · -- saveSite
    intro d siteName fresh now d1 h hok
    cases hidx : getActiveIdx d with
    | none => simp [saveSiteFn, hidx] at hok
    | some i =>
      cases hgi : d.projects[i]? with
      | none => simp [saveSiteFn, hidx, hgi] at hok
      | some project =>
        simp only [saveSiteFn, hidx, hgi] at hok
        have hd1 := (Except.ok.inj hok)
        rw [← hd1]
        exact currentOk_set d i project _ rfl hgi h
  · -- saveRoute
    intro d routeData fresh now d1 h hok
    cases hidx : getActiveIdx d with
    | none => simp [saveRouteFn, hidx] at hok
    | some i =>
      cases hgi : d.projects[i]? with
      | none => simp [saveRouteFn, hidx, hgi] at hok
      | some project =>
        simp only [saveRouteFn, hidx, hgi] at hok
        have hd1 := (Except.ok.inj hok)
        rw [← hd1]
        exact currentOk_set d i project _ rfl hgi h
  · -- saveExternalFile
    intro d fileName fileType spotIds fresh now d1 h hok
    cases hidx : getActiveIdx d with
    | none => simp [saveExternalFileFn, hidx] at hok
    | some i =>
      cases hgi : d.projects[i]? with
      | none => simp [saveExternalFileFn, hidx, hgi] at hok
      | some project =>
        cases hhd : spotIds.head? with
        | none => simp [saveExternalFileFn, hidx, hgi, hhd] at hok
        | some primary =>
          simp only [saveExternalFileFn, hidx, hgi, hhd] at hok
          have hd1 := (Except.ok.inj hok)
          rw [← hd1]
          exact currentOk_set d i project _ rfl hgi h
  · -- createProject
    intro d name fresh now
    intro _
    exact ⟨_, List.mem_append_right _ (List.mem_cons_self _ _), rfl⟩
  · -- switchProject
    intro d pid d1 hok
    by_cases hany : d.projects.any (fun p => p.id = pid) = true
    · simp only [switchProjectFn, hany, if_pos] at hok
      have hd1 := (Except.ok.inj hok)
      rw [← hd1]
      intro _
      obtain ⟨p, hp, hpid⟩ := List.any_eq_true.1 hany
      exact ⟨p, hp, by rw [of_decide_eq_true hpid]⟩
    · simp [switchProjectFn, hany] at hok
  · -- renameProject
    intro d pid nm d1 h hok
    cases hfi : d.projects.findIdx? (fun p => p.id = pid) with
    | none => simp [renameProjectFn, hfi] at hok
    | some i =>
      cases hgi : d.projects[i]? with
      | none => simp [renameProjectFn, hfi, hgi] at hok
      | some project =>
        cases nm with
        | none => simp [renameProjectFn, hfi, hgi] at hok
        | some s =>
          by_cases hs : s = "" ∨ jsTrim s = ""
          · simp [renameProjectFn, hfi, hgi, hs] at hok
          · simp only [renameProjectFn, hfi, hgi, if_neg hs] at hok
            have hd1 := (Except.ok.inj hok)
            rw [← hd1]
            exact currentOk_set d i project _ rfl hgi h
  · -- deleteProject
    intro d pid h hsnd
    by_cases hlen : d.projects.length ≤ 1
    · simp [deleteProjectFn, hlen] at hsnd
    · by_cases hcur : d.currentProjectId = some pid
      · cases hhd : (d.projects.filter (fun p => p.id ≠ pid)).head? with
        | none =>
          have hsnd2 : (deleteProjectFn d pid).2 = some "TypeError" := by
            simp only [deleteProjectFn, if_neg hlen, hcur, if_pos rfl, hhd,
              if_true]
          rw [hsnd] at hsnd2
          exact Option.noConfusion hsnd2
        | some p =>
          simp only [deleteProjectFn, if_neg hlen, hcur, if_pos rfl, hhd]
          intro _
          refine ⟨p, ?_, rfl⟩
          have : d.projects.filter (fun q => q.id ≠ pid) = p :: _ :=
            (List.head?_eq_some_iff.1 hhd).choose_spec
          exact this ▸ List.mem_cons_self _ _
      · simp only [deleteProjectFn, if_neg hlen, if_neg hcur]
        intro _
        have hne : d.projects ≠ [] := by
          intro hcontra
          rw [hcontra] at hlen
          simp at hlen
        obtain ⟨w, hw, hwid⟩ := h hne
        have hwne : w.id ≠ pid := by
          intro hcontra
          exact hcur (hwid.trans (by rw [hcontra]))
        exact ⟨w, List.mem_filter.2 ⟨hw, by simpa using hwne⟩, hwid⟩
  · -- pull of a flat (v1) remote: migration establishes the invariant
    intro flat fresh now
    intro _
    exact ⟨_, List.mem_cons_self _ _, rfl⟩
  · -- pull of a project-based remote: the document is adopted verbatim
    intro dm fresh now h
    exact h
  · -- merge
    intro dl rr fl fr n1 n2 n3 h hne
    obtain ⟨w, hw, hwid⟩ := h hne
    obtain ⟨q, hq, hqid⟩ :=
      mergeDatasets_keeps_local_ids dl rr fl fr n1 n2 n3 w hw
    intro _
    refine ⟨q, hq, ?_⟩
    show dl.currentProjectId = some q.id
    rw [hwid, hqid]

/-- Witness for the amended C2, applying several conjuncts at concrete
inputs. -/
theorem c2_current_reference_valid_witness :
    currentOk (ensureMasterJsonFn none "u1" 0) ∧
    currentOk (createProjectFn exDocSpotL (some "New") "u2" 5) ∧
    currentOk (resolvePullFn (.proj exDocSpotL) "u3" 0) ∧
    currentOk (mergeDatasets "u4" "u5" 0 0 0 (.proj exDocSpotL)
      (.proj exDocQ)) := by
  refine ⟨?_, ?_, ?_, ?_⟩
  · exact c2_current_reference_valid.1 none "u1" 0 (by decide)
  · exact c2_current_reference_valid.2.2.2.2.2.1 exDocSpotL (some "New")
      "u2" 5
  · exact c2_current_reference_valid.2.2.2.2.2.2.2.2.2.2.1 exDocSpotL
      "u3" 0 (by decide)
  · exact c2_current_reference_valid.2.2.2.2.2.2.2.2.2.2.2 exDocSpotL
      (.proj exDocQ) "u4" "u5" 0 0 0 (by decide) (by decide)

end CEM
